import Mathlib

/-!
# Verification of the UNO room game-state machine

Shallow embedding of the room game engine of `src/app.py` (an UNO WebSocket
server).  Python lists are modelled as Lean lists in the same order, so
`list.pop()` pops the *last* element (`getLast?` / `dropLast`) and
`list.append` appends at the end (`++ [c]`).  The `players` insertion-ordered
dict is modelled as a `List Player` (dict keys are the player ids, which are
unique in any reachable state; theorems that need uniqueness carry a `Nodup`
hypothesis).  `random.shuffle` is modelled by an explicit `shuffle` function
parameter; theorems assume `∀ l, (shuffle l).Perm l`.  A Python statement
that can raise (popping an empty list, indexing out of range) is modelled by
an `Option` result whose `none` is the exception propagating out of the
handler.  The transport layer (Flask / websockets, JSON decoding, the
`join`/`setRules`/`getState` bookkeeping branches and broadcasting plumbing)
is out of scope; the per-message responses are modelled by small inductive
result types that record whether a reply goes to the requester only or is
broadcast to the room.
-/

namespace Uno

/-- `src/app.py` line 29: the global `VALUES` list. -/
def VALUES : List String :=
  ["zero", "one", "two", "three", "four", "five", "six", "seven", "eight", "nine",
   "skip", "reverse", "drawTwo", "wild", "wildDrawFour"]

/-- `card_point` (lines 34-44): skip/reverse/drawTwo score 20, wilds 50,
`zero..nine` score their index in `VALUES` (capped at 9); an unknown value
raises `ValueError` inside the `try` and scores 0. -/
def card_point (value : String) : Nat :=
  if value = "skip" ∨ value = "reverse" ∨ value = "drawTwo" then 20
  else if value = "wild" ∨ value = "wildDrawFour" then 50
  else
    match VALUES.indexOf? value with
    | some idx => min idx 9
    | none => 0

/-- `Card` dataclass (lines 46-60). -/
structure Card where
  color : String
  value : String
deriving DecidableEq, Repr

/-- `Card.is_wild` property (lines 58-60). -/
def Card.is_wild (c : Card) : Bool :=
  c.value = "wild" ∨ c.value = "wildDrawFour"

/-- `Player` dataclass (lines 62-80); the `ws` channel handle is out of scope. -/
structure Player where
  id : String
  name : String
  hand : List Card
  score : Nat
  said_uno : Bool
  connected : Bool
deriving DecidableEq, Repr

/-- `Rules` dataclass (lines 82-88). -/
structure Rules where
  stackingPlus : Bool
  skipChain : Bool
deriving DecidableEq, Repr

/-- `Room` dataclass (lines 90-104); the `threading.RLock` is out of scope.
`current_player_idx` is a `Nat` because every assignment in the source is
either `0` or a Python `%`-of-positive result, which is non-negative. -/
structure Room where
  id : String
  name : String
  rules : Rules
  players : List Player
  draw_pile : List Card
  discard_pile : List Card
  current_color : Option String
  current_value : Option String
  current_player_idx : Nat
  direction : Int
  accumulated_draw : Nat
  started : Bool
deriving DecidableEq, Repr

/-- The draw pile built by `Room.build_deck` (lines 107-123) before the final
shuffle, in exactly the source's append order. -/
def deckList : List Card :=
  ((["red", "yellow", "green", "blue"].map fun color =>
      Card.mk color "zero" ::
        (((["one", "two", "three", "four", "five", "six", "seven", "eight", "nine"].map
            fun v => [Card.mk color v, Card.mk color v]).flatten) ++
          ((["skip", "reverse", "drawTwo"].map
            fun v => [Card.mk color v, Card.mk color v]).flatten))).flatten) ++
    ((List.range 4).map fun _ => [Card.mk "wild" "wild", Card.mk "wild" "wildDrawFour"]).flatten

/-- The canonical 108-card multiset. -/
def deck108 : Multiset Card := ↑deckList

/-- `Room.build_deck` (lines 107-123): clear both piles, rebuild the 108-card
draw pile, shuffle it. -/
def Room.build_deck (shuffle : List Card → List Card) (r : Room) : Room :=
  { r with draw_pile := shuffle deckList, discard_pile := [] }

/-- The pile part of `Room.draw` (lines 125-133), acting on
`(draw_pile, discard_pile)`: if the draw pile is empty and the discard pile
holds more than one card, pop the discard top and shuffle the rest into a new
draw pile; then pop the draw pile.  `none` models the `IndexError` of popping
an empty list. -/
def drawP (shuffle : List Card → List Card) :
    List Card × List Card → Option (Card × List Card × List Card)
  | (draw_pile, discard_pile) =>
    let piles : List Card × List Card :=
      if draw_pile = [] then
        if 1 < discard_pile.length then
          match discard_pile.getLast? with
          | some top => (shuffle discard_pile.dropLast, [top])
          | none => (draw_pile, discard_pile)
        else (draw_pile, discard_pile)
      else (draw_pile, discard_pile)
    match piles.1.getLast? with
    | none => none
    | some c => some (c, piles.1.dropLast, piles.2)

/-- `Room.draw` (lines 125-133) lifted to the room state. -/
def Room.draw (shuffle : List Card → List Card) (r : Room) : Option (Card × Room) :=
  match drawP shuffle (r.draw_pile, r.discard_pile) with
  | none => none
  | some (c, dp, dc) => some (c, { r with draw_pile := dp, discard_pile := dc })

/-- `Room.ordered_ids` (lines 159-160). -/
def Room.ordered_ids (r : Room) : List String := r.players.map Player.id

/-- `Room.next_index` (lines 162-169).  Every call site of the source leaves
`base_idx` at its default `None`, so the base is always
`current_player_idx`.  Python `%` on a positive modulus agrees with
`Int.emod` followed by `toNat`. -/
def Room.next_index (r : Room) (step : Int) : Nat :=
  let n := r.players.length
  if n = 0 then 0
  else (((r.current_player_idx : Int) + r.direction * step) % (n : Int)).toNat

/-- `Room.current_player` (lines 171-175).  The outer `Option` is `none` when
`ids[self.current_player_idx]` raises `IndexError`; the inner `Option` is the
source's `None` result for an empty room. -/
def Room.current_player (r : Room) : Option (Option Player) :=
  if r.players = [] then some none
  else
    match r.players[r.current_player_idx]? with
    | some p => some (some p)
    | none => none

/-- `Room.player_by_id` (lines 177-178) / `pid in room.players`: dict lookup
by the unique key `id`. -/
def Room.find_player (r : Room) (pid : String) : Option Player :=
  r.players.find? fun p => p.id = pid

/-- `pid in room.players` membership test. -/
def Room.has_player (r : Room) (pid : String) : Bool :=
  r.players.any fun p => p.id = pid

/-- `Room.can_play` (lines 181-188). -/
def Room.can_play (r : Room) (card : Card) : Bool :=
  if 0 < r.accumulated_draw then
    if !r.rules.stackingPlus then false
    else
      (card.value = "drawTwo" ∧ r.current_value = some "drawTwo") ∨
        (card.value = "wildDrawFour" ∧ r.current_value = some "wildDrawFour")
  else
    card.is_wild ∨ r.current_color = some card.color ∨ r.current_value = some card.value

/-- Mutating `room.players[pid].<field>` through the dict: update every entry
whose key matches (in a reachable state ids are unique, so exactly one). -/
def update_player (ps : List Player) (pid : String) (f : Player → Player) : List Player :=
  ps.map fun q => if q.id = pid then f q else q

/-- `target.hand.append(c)` for `target = players[ordered_ids()[i]]`. -/
def appendToHandAt (ps : List Player) (i : Nat) (c : Card) : List Player :=
  match ps[i]? with
  | some p => ps.set i { p with hand := p.hand ++ [c] }
  | none => ps

/-- The `for _ in range(n)` loop of `Room.draw_cards` (lines 203-206). -/
def drawLoop (shuffle : List Card → List Card) (r : Room) (i : Nat) : Nat → Option Room
  | 0 => some r
  | Nat.succ k =>
    match Room.draw shuffle r with
    | none => none
    | some (c, r1) => drawLoop shuffle { r1 with players := appendToHandAt r1.players i c } i k

/-- `Room.draw_cards` (lines 203-206): `ordered_ids()[player_idx]` raises
`IndexError` (modelled `none`) when the index is out of range, else the
target player draws `n` cards one by one. -/
def Room.draw_cards (shuffle : List Card → List Card) (r : Room) (player_idx n : Nat) :
    Option Room :=
  if player_idx < r.players.length then drawLoop shuffle r player_idx n else none

/-- `Room.apply_flip` (lines 190-201): the effect of the starting card.  In
the `drawTwo` arm the source computes `next_index(step=1)` again *after*
`draw_cards`, still from the unchanged cursor. -/
def Room.apply_flip (shuffle : List Card → List Card) (r : Room) (first : Card) :
    Option Room :=
  if first.value = "skip" then
    some { r with current_player_idx := r.next_index 1 }
  else if first.value = "reverse" then
    if r.players.length = 2 then
      some { r with
             direction := r.direction * (-1)
             current_player_idx :=
               ({ r with direction := r.direction * (-1) } : Room).next_index 1 }
    else some { r with direction := r.direction * (-1) }
  else if first.value = "drawTwo" then
    match Room.draw_cards shuffle r (r.next_index 1) 2 with
    | none => none
    | some r1 => some { r1 with current_player_idx := r1.next_index 1 }
  else some r

/-- The hand-clearing loop at the top of `Room.deal` (lines 136-138). -/
def clearHands (ps : List Player) : List Player :=
  ps.map fun p => { p with hand := [], said_uno := false }

/-- The inner `for p in self.iter_players_order(): p.hand.append(self.draw())`
of `Room.deal` (lines 140-141), threading the two piles. -/
def dealOneRound (shuffle : List Card → List Card) :
    List Player → List Card × List Card → Option (List Player × List Card × List Card)
  | [], piles => some ([], piles)
  | p :: ps, piles =>
    match drawP shuffle piles with
    | none => none
    | some (c, dp, dc) =>
      match dealOneRound shuffle ps (dp, dc) with
      | none => none
      | some (ps1, piles1) => some ({ p with hand := p.hand ++ [c] } :: ps1, piles1)

/-- The outer `for _ in range(7)` of `Room.deal` (lines 139-141). -/
def dealRounds (shuffle : List Card → List Card) (r : Room) : Nat → Option Room
  | 0 => some r
  | Nat.succ k =>
    match dealOneRound shuffle r.players (r.draw_pile, r.discard_pile) with
    | none => none
    | some (ps1, dp, dc) =>
      dealRounds shuffle { r with players := ps1, draw_pile := dp, discard_pile := dc } k

/-- The `while first.is_wild` re-draw loop of `Room.deal` (lines 143-147),
with explicit fuel for the (probabilistically terminating) loop. -/
def flipFirst (shuffle : List Card → List Card) : Nat → Room → Option (Card × Room)
  | 0, _ => none
  | Nat.succ fuel, r =>
    match Room.draw shuffle r with
    | none => none
    | some (c, r1) =>
      if c.is_wild then
        flipFirst shuffle fuel { r1 with draw_pile := shuffle (r1.draw_pile ++ [c]) }
      else some (c, r1)

/-- `Room.deal` (lines 135-154). -/
def Room.deal (shuffle : List Card → List Card) (fuel : Nat) (r : Room) : Option Room :=
  let r0 : Room := { r with players := clearHands r.players }
  match dealRounds shuffle r0 7 with
  | none => none
  | some r1 =>
    match flipFirst shuffle fuel r1 with
    | none => none
    | some (first, r2) =>
      let r3 : Room :=
        { r2 with
          discard_pile := r2.discard_pile ++ [first]
          current_color := some first.color
          current_value := some first.value
          current_player_idx := 0
          direction := 1
          accumulated_draw := 0 }
      Room.apply_flip shuffle r3 first

/-- The five rejection errors of the `playCard`/`drawCard` branches. -/
inductive WsErr
  | game_not_started
  | invalid_player
  | not_your_turn
  | card_not_in_hand
  | illegal_move
deriving DecidableEq, Repr

/-- Outcome of the `playCard` branch: `err e` is a `ws_send` to the requester
only (nothing broadcast); `played winner` is the room-wide `"played"`
broadcast carrying the nullable `winnerId`. -/
inductive PlayResult
  | err (e : WsErr)
  | played (winner : Option String)
deriving DecidableEq, Repr

/-- Outcome of the `drawCard` branch: `err e` to the requester only; `drew`
is the room-wide `"drew"` broadcast. -/
inductive DrawResult
  | err (e : WsErr)
  | drew
deriving DecidableEq, Repr

/-- Outcome of the `sayUno` branch: `silent` means the source sent nothing at
all (the `if pid in room.players` guard failed); `saidUno` is the room-wide
`"saidUno"` broadcast. -/
inductive UnoResult
  | silent
  | saidUno
deriving DecidableEq, Repr

/-- Outcome of the `calloutUno` branch: a room-wide `"unoPenalty"` broadcast
with a non-empty offenders list, or the empty-offenders reply to the
requester only. -/
inductive CalloutResult
  | broadcastPenalty (offenders : List String) (caller : Option String)
  | emptyToSender
deriving DecidableEq, Repr

/-- Outcome of the `start` branch. -/
inductive StartResult
  | err_need_two
  | started
deriving DecidableEq, Repr

/-- Python truthiness of `data.get(...)` for an optional string field. -/
def truthy : Option String → Bool
  | none => false
  | some s => !(s = "")

/-- The scoring loop of the `playCard` win block (lines 426-431): the sum of
`card_point` over every hand except the winner's own. -/
def scoreSum (ps : List Player) (pid : String) : Nat :=
  (ps.map fun q =>
    if q.id = pid then 0 else (q.hand.map fun c => card_point c.value).sum).sum

/-- Lines 380-385 of the `playCard` branch: pop the matching card (already
removed as `hand1`) from `pid`'s hand, push it on the discard pile, and reset
`saidUno` when exactly one card remains. -/
def pop_to_discard (r : Room) (pid : String) (hand1 : List Card) (played : Card) : Room :=
  { r with
    players := update_player r.players pid fun q =>
      { q with
        hand := hand1
        said_uno := if hand1.length = 1 then false else q.said_uno }
    discard_pile := r.discard_pile ++ [played] }

/-- Lines 387-419 of the `playCard` branch: the wild / skip / reverse /
drawTwo / plain turn logic, acting on the room `r1` that already holds the
discarded card.  In the non-stacking `drawTwo` arm the source recomputes
`next_index(step=1)` after `draw_cards`, still from the unchanged cursor. -/
def turn_step (shuffle : List Card → List Card) (r1 : Room) (played : Card)
    (choose? : Option String) : Option Room :=
  if played.is_wild then
    let r2 : Room :=
      { r1 with
        current_color := if truthy choose? then choose? else r1.current_color
        current_value := some played.value }
    if played.value = "wildDrawFour" then
      some { r2 with
             accumulated_draw := r2.accumulated_draw + 4
             current_player_idx := r2.next_index 1 }
    else
      some { r2 with current_player_idx := r2.next_index 1 }
  else
    let r2 : Room :=
      { r1 with
        current_color := some played.color
        current_value := some played.value }
    if played.value = "skip" then
      some { r2 with current_player_idx := r2.next_index 2 }
    else if played.value = "reverse" then
      let r3 : Room := { r2 with direction := r2.direction * (-1) }
      some { r3 with current_player_idx := r3.next_index 1 }
    else if played.value = "drawTwo" then
      if r2.rules.stackingPlus then
        some { r2 with
               accumulated_draw := r2.accumulated_draw + 2
               current_player_idx := r2.next_index 1 }
      else
        match Room.draw_cards shuffle r2 (r2.next_index 1) 2 with
        | none => none
        | some r3 => some { r3 with current_player_idx := r3.next_index 1 }
    else
      some { r2 with current_player_idx := r2.next_index 1 }

/-- Lines 421-433 of the `playCard` branch: the win block.  When the acting
hand is empty the actor's score grows by the `card_point` sum over every
other hand, the round ends and the winner id is set. -/
def finish_play (r4 : Room) (pid : String) (hand1 : List Card) : Room × Option String :=
  if hand1.length = 0 then
    ({ r4 with
       players := update_player r4.players pid fun q =>
         { q with score := q.score + scoreSum r4.players pid }
       started := false },
     some pid)
  else (r4, none)

/-- The mutation part of the `playCard` branch (lines 380-433), after all
validations have passed, composed from `pop_to_discard`, `turn_step` and
`finish_play`.  Returns the resulting room and the nullable `winnerId`. -/
def play_effect (shuffle : List Card → List Card) (r : Room) (pid : String) (p : Player)
    (found_idx : Nat) (choose? : Option String) : Option (Room × Option String) :=
  match p.hand[found_idx]? with
  | none => none
  | some played =>
    match turn_step shuffle (pop_to_discard r pid (p.hand.eraseIdx found_idx) played)
        played choose? with
    | none => none
    | some r4 => some (finish_play r4 pid (p.hand.eraseIdx found_idx))

/-- The `playCard` branch of `ws_handler` (lines 355-443).  `none` models an
uncaught exception (an empty-pile pop inside `draw_cards`, or the
`IndexError` in `current_player()`); every other path returns the resulting
room and the response.  On each rejection the source has performed no
mutation yet, so the input room is returned unchanged. -/
def handle_playCard (shuffle : List Card → List Card) (r : Room) (pid? : Option String)
    (card : Card) (choose? : Option String) : Option (Room × PlayResult) :=
  if r.started = false then some (r, .err .game_not_started)
  else
    match pid? with
    | none => some (r, .err .invalid_player)
    | some pid =>
      if pid = "" ∨ r.has_player pid = false then some (r, .err .invalid_player)
      else
        match r.current_player with
        | none => none
        | some cur =>
          if ¬ cur.map Player.id = some pid then some (r, .err .not_your_turn)
          else
            match r.find_player pid with
            | none => none
            | some p =>
              match p.hand.findIdx? fun c => c.color = card.color ∧ c.value = card.value with
              | none => some (r, .err .card_not_in_hand)
              | some found_idx =>
                if r.can_play card = false then some (r, .err .illegal_move)
                else
                  (play_effect shuffle r pid p found_idx choose?).map fun x =>
                    (x.1, .played x.2)

/-- The `drawCard` branch of `ws_handler` (lines 445-473). -/
def handle_drawCard (shuffle : List Card → List Card) (r : Room) (pid? : Option String) :
    Option (Room × DrawResult) :=
  if r.started = false then some (r, .err .game_not_started)
  else
    match pid? with
    | none => some (r, .err .invalid_player)
    | some pid =>
      if pid = "" ∨ r.has_player pid = false then some (r, .err .invalid_player)
      else
        match r.current_player with
        | none => none
        | some cur =>
          if ¬ cur.map Player.id = some pid then some (r, .err .not_your_turn)
          else
            if 0 < r.accumulated_draw then
              match Room.draw_cards shuffle r r.current_player_idx r.accumulated_draw with
              | none => none
              | some r1 =>
                some ({ r1 with
                        accumulated_draw := 0
                        current_player_idx := r1.next_index 1 }, .drew)
            else
              match Room.draw_cards shuffle r r.current_player_idx 1 with
              | none => none
              | some r1 =>
                some ({ r1 with current_player_idx := r1.next_index 1 }, .drew)

/-- The `sayUno` branch of `ws_handler` (lines 475-481): no `started` check;
an unknown or missing player id falls through the `if pid in room.players`
guard with no reply and no broadcast. -/
def handle_sayUno (r : Room) (pid? : Option String) : Room × UnoResult :=
  match pid? with
  | none => (r, .silent)
  | some pid =>
    if r.has_player pid then
      ({ r with
         players := update_player r.players pid fun p =>
           if p.hand.length = 1 then { p with said_uno := true } else p },
       .saidUno)
    else (r, .silent)

/-- The offender scan of the `calloutUno` branch (lines 485-490), threading
the two piles through the per-offender draws. -/
def calloutLoop (shuffle : List Card → List Card) :
    List Player → List Card × List Card →
      Option (List Player × (List Card × List Card) × List String)
  | [], piles => some ([], piles, [])
  | p :: ps, piles =>
    if p.hand.length = 1 ∧ p.said_uno = false then
      match drawP shuffle piles with
      | none => none
      | some (c1, piles1) =>
        match drawP shuffle piles1 with
        | none => none
        | some (c2, piles2) =>
          match calloutLoop shuffle ps piles2 with
          | none => none
          | some (ps1, piles3, offs) =>
            some ({ p with hand := p.hand ++ [c1, c2] } :: ps1, piles3, p.id :: offs)
    else
      match calloutLoop shuffle ps piles with
      | none => none
      | some (ps1, piles1, offs) => some (p :: ps1, piles1, offs)

/-- The `calloutUno` branch of `ws_handler` (lines 483-494): no `started`
check and no validation of the caller id. -/
def handle_calloutUno (shuffle : List Card → List Card) (r : Room)
    (caller : Option String) : Option (Room × CalloutResult) :=
  match calloutLoop shuffle r.players (r.draw_pile, r.discard_pile) with
  | none => none
  | some (ps1, piles1, offs) =>
    let r1 : Room := { r with players := ps1, draw_pile := piles1.1, discard_pile := piles1.2 }
    if ¬ offs = [] then some (r1, .broadcastPenalty offs caller)
    else some (r1, .emptyToSender)

/-- The `start` branch of `ws_handler` (lines 343-350). -/
def handle_start (shuffle : List Card → List Card) (fuel : Nat) (r : Room) :
    Option (Room × StartResult) :=
  if r.players.length < 2 then some (r, .err_need_two)
  else
    match Room.deal shuffle fuel (Room.build_deck shuffle r) with
    | none => none
    | some r1 => some ({ r1 with started := true }, .started)

/-- The inbound messages whose handlers the claims are about. -/
inductive Msg
  | start
  | playCard (pid? : Option String) (card : Card) (choose? : Option String)
  | drawCard (pid? : Option String)
  | sayUno (pid? : Option String)
  | calloutUno (pid? : Option String)
deriving DecidableEq, Repr

/-- Responses of the modelled branches. -/
inductive Response
  | startRes (s : StartResult)
  | playRes (p : PlayResult)
  | drawRes (d : DrawResult)
  | unoRes (u : UnoResult)
  | calloutRes (c : CalloutResult)
deriving DecidableEq, Repr

/-- The `ws_handler` dispatch (lines 309-497) restricted to the five
game-state operations the claims quantify over. -/
def handle_msg (shuffle : List Card → List Card) (fuel : Nat) (r : Room) :
    Msg → Option (Room × Response)
  | .start => (handle_start shuffle fuel r).map fun x => (x.1, .startRes x.2)
  | .playCard pid? card choose? =>
    (handle_playCard shuffle r pid? card choose?).map fun x => (x.1, .playRes x.2)
  | .drawCard pid? => (handle_drawCard shuffle r pid?).map fun x => (x.1, .drawRes x.2)
  | .sayUno pid? => some ((handle_sayUno r pid?).1, .unoRes (handle_sayUno r pid?).2)
  | .calloutUno pid? => (handle_calloutUno shuffle r pid?).map fun x => (x.1, .calloutRes x.2)

/-- All cards held in players' hands, in seating order. -/
def handsOf (ps : List Player) : List Card := (ps.map Player.hand).flatten

/-- The multiset union of the draw pile, the discard pile and every hand. -/
def Room.allCards (r : Room) : Multiset Card :=
  ↑(r.draw_pile ++ r.discard_pile ++ handsOf r.players)

/-- The current player's id as an observable (the seat the turn cursor points
at). -/
def Room.currentId (r : Room) : Option String :=
  (r.players[r.current_player_idx]?).map Player.id

/-! ### Concrete fixtures used by witnesses and counterexamples -/

/-- A player fixture with empty score and flags. -/
def mkP (i : String) (h : List Card) : Player :=
  { id := i, name := i, hand := h, score := 0, said_uno := false, connected := true }

/-- The default rule set (`stackingPlus := true`). -/
def baseRules : Rules := { stackingPlus := true, skipChain := true }

/-- Rules with stacking disabled. -/
def noStackRules : Rules := { stackingPlus := false, skipChain := true }

/-- A room fixture. -/
def mkRoom (rules : Rules) (ps : List Player) (dp dc : List Card)
    (cc cv : Option String) (idx : Nat) (dir : Int) (acc : Nat) (st : Bool) : Room :=
  { id := "room1", name := "room1", rules := rules, players := ps, draw_pile := dp,
    discard_pile := dc, current_color := cc, current_value := cv,
    current_player_idx := idx, direction := dir, accumulated_draw := acc, started := st }

/-- Two fresh seats over the unshuffled full deck, round not yet started. -/
def room2p : Room :=
  mkRoom baseRules [mkP "A" [], mkP "B" []] deckList [] none none 0 1 0 false

/-- Two connected seats; the current player holds a matching skip. -/
def rSkip : Room :=
  mkRoom baseRules
    [mkP "A" [⟨"red", "skip"⟩, ⟨"red", "one"⟩], mkP "B" [⟨"blue", "two"⟩]]
    [⟨"green", "four"⟩, ⟨"green", "five"⟩] [⟨"red", "zero"⟩]
    (some "red") (some "zero") 0 1 0 true

/-- Three seats, stacking disabled; the current player holds a matching
drawTwo. -/
def rD2 : Room :=
  mkRoom noStackRules
    [mkP "A" [⟨"red", "drawTwo"⟩, ⟨"red", "one"⟩], mkP "B" [⟨"blue", "two"⟩],
     mkP "C" [⟨"green", "three"⟩]]
    [⟨"green", "four"⟩, ⟨"green", "five"⟩, ⟨"green", "six"⟩] [⟨"red", "zero"⟩]
    (some "red") (some "zero") 0 1 0 true

/-- Three fresh seats right before the starting-card flip effect is applied
during `deal` (cursor 0, direction 1). -/
def rFlip : Room :=
  mkRoom baseRules [mkP "A" [], mkP "B" [], mkP "C" []]
    [⟨"green", "four"⟩, ⟨"green", "five"⟩] [⟨"red", "drawTwo"⟩]
    (some "red") (some "drawTwo") 0 1 0 false

/-- The current player holds only a red five while blue/two is on top:
no legal play. -/
def rIll : Room :=
  mkRoom baseRules [mkP "A" [⟨"red", "five"⟩], mkP "B" [⟨"blue", "two"⟩]]
    [⟨"green", "four"⟩] [⟨"blue", "two"⟩] (some "blue") (some "two") 0 1 0 true

/-- A pending stacked penalty of 4 on the current player (seat 1). -/
def rStack : Room :=
  mkRoom baseRules [mkP "A" [⟨"red", "one"⟩], mkP "B" [⟨"blue", "two"⟩]]
    [⟨"green", "four"⟩, ⟨"green", "five"⟩, ⟨"green", "six"⟩, ⟨"green", "seven"⟩,
     ⟨"green", "eight"⟩]
    [⟨"red", "wildDrawFour"⟩] (some "red") (some "wildDrawFour") 1 1 4 true

/-- The current player is one matching card from going out; the opponent
holds a nine and a wildDrawFour (9 + 50 = 59 points). -/
def rWin : Room :=
  mkRoom baseRules
    [mkP "A" [⟨"red", "five"⟩], mkP "B" [⟨"red", "nine"⟩, ⟨"wild", "wildDrawFour"⟩]]
    [⟨"green", "four"⟩] [⟨"red", "zero"⟩] (some "red") (some "zero") 0 1 0 true

/-- The current player holds a wild card. -/
def rWild : Room :=
  mkRoom baseRules
    [mkP "A" [⟨"wild", "wild"⟩, ⟨"red", "one"⟩], mkP "B" [⟨"blue", "two"⟩]]
    [⟨"green", "four"⟩] [⟨"red", "zero"⟩] (some "red") (some "zero") 0 1 0 true

/-- A room whose round is NOT started, with seat "A" down to one undeclared
card: exercises the missing `started`/membership checks of `sayUno` and
`calloutUno`. -/
def rUno : Room :=
  mkRoom baseRules
    [mkP "A" [⟨"red", "one"⟩], mkP "B" [⟨"blue", "two"⟩, ⟨"blue", "three"⟩]]
    [⟨"green", "four"⟩, ⟨"green", "five"⟩, ⟨"green", "six"⟩] [⟨"red", "zero"⟩]
    (some "red") (some "zero") 0 1 0 false

/-- An empty draw pile with a three-card discard pile. -/
def rLow : Room :=
  mkRoom baseRules [mkP "A" [⟨"red", "one"⟩], mkP "B" [⟨"blue", "two"⟩]]
    [] [⟨"red", "one"⟩, ⟨"red", "two"⟩, ⟨"blue", "three"⟩]
    (some "blue") (some "three") 0 1 0 true

/-- The cursor formula of `next_index` as a standalone function of the seat
count, base index, direction and step. -/
def stepIdx (n i : Nat) (d s : Int) : Nat :=
  if n = 0 then 0 else (((i : Int) + d * s) % (n : Int)).toNat

/-- The score of the player registered under `pid` (0 when absent). -/
def scoreOf (r : Room) (pid : String) : Nat :=
  ((r.find_player pid).map Player.score).getD 0

/-- Result room of the wild play with the unvalidated color "purple". -/
def rWildRes : Room :=
  ((handle_playCard (fun l => l) rWild (some "A") ⟨"wild", "wild"⟩
    (some "purple")).getD (rWild, .played none)).1

/-- Result room of resolving the stacked penalty of 4 in `rStack`. -/
def rStackRes : Room :=
  ((handle_drawCard (fun l => l) rStack (some "B")).getD (rStack, .drew)).1

/-- Result of `calloutUno` on `rUno` by the non-member caller "ZZZ". -/
def rUnoRes : Room × CalloutResult :=
  (handle_calloutUno (fun l => l) rUno (some "ZZZ")).getD (rUno, .emptyToSender)

/-- Result of the winning play in `rWin`. -/
def rWinRes : Room × PlayResult :=
  (handle_playCard (fun l => l) rWin (some "A") ⟨"red", "five"⟩ none).getD
    (rWin, .played none)

/-- Result of the starting-card drawTwo flip effect on `rFlip`. -/
def rFlipRes : Room :=
  (Room.apply_flip (fun l => l) rFlip ⟨"red", "drawTwo"⟩).getD rFlip

/-- Result of playing a red drawTwo in `rD2` (stacking disabled). -/
def rD2Res : Room :=
  ((handle_playCard (fun l => l) rD2 (some "A") ⟨"red", "drawTwo"⟩ none).getD
    (rD2, .played none)).1

/-- Result of a full `start` on the two-seat room over the identity shuffle. -/
def startRes2p : Room × Response :=
  (handle_msg (fun l => l) 1 room2p Msg.start).getD (room2p, .startRes .err_need_two)

/-- Result of playing the red skip in the two-seat room `rSkip`. -/
def rSkipRes : Room :=
  ((handle_playCard (fun l => l) rSkip (some "A") ⟨"red", "skip"⟩ none).getD
    (rSkip, .played none)).1

/-! ### List and multiset helper lemmas -/

theorem lt_of_getElem?_eq_some {α : Type} {l : List α} {i : Nat} {x : α}
    (h : l[i]? = some x) : i < l.length := by
  by_contra hi
  rw [List.getElem?_eq_none (Nat.le_of_not_lt hi)] at h
  exact Option.noConfusion h

theorem cons_eraseIdx_perm {α : Type} {l : List α} :
    ∀ {i : Nat} {x : α}, l[i]? = some x → (x :: l.eraseIdx i).Perm l := by
  induction l with
  | nil => intro i x h; simp at h
  | cons a l ih =>
    intro i x h
    cases i with
    | zero =>
      simp only [List.getElem?_cons_zero, Option.some.injEq] at h
      subst h
      simp [List.eraseIdx]
    | succ j =>
      simp only [List.getElem?_cons_succ] at h
      rw [List.eraseIdx_cons_succ]
      exact (List.Perm.swap a x _).trans ((ih h).cons a)

theorem drawP_eq_nonempty {shuffle : List Card → List Card} {dp dc : List Card}
    (hdp : ¬ dp = []) :
    drawP shuffle (dp, dc) =
      match dp.getLast? with
      | none => none
      | some c => some (c, dp.dropLast, dc) := by
  simp [drawP, hdp]

theorem drawP_eq_reshuffle {shuffle : List Card → List Card} {dc : List Card} {top : Card}
    (hdc : 1 < dc.length) (htop : dc.getLast? = some top) :
    drawP shuffle ([], dc) =
      match (shuffle dc.dropLast).getLast? with
      | none => none
      | some c => some (c, (shuffle dc.dropLast).dropLast, [top]) := by
  simp [drawP, hdc, htop]

theorem drawP_eq_empty_low {shuffle : List Card → List Card} {dc : List Card}
    (hdc : ¬ 1 < dc.length) : drawP shuffle ([], dc) = none := by
  simp [drawP, hdc]

theorem drawP_perm {shuffle : List Card → List Card} (hperm : ∀ l, (shuffle l).Perm l)
    {dp dc dp' dc' : List Card} {c : Card}
    (h : drawP shuffle (dp, dc) = some (c, dp', dc')) :
    (c :: (dp' ++ dc')).Perm (dp ++ dc) := by
  by_cases hdp : dp = []
  · subst hdp
    by_cases hdc : 1 < dc.length
    · have hne : dc ≠ [] := by
        intro h0
        rw [h0] at hdc
        simp at hdc
      have htop : dc.getLast? = some (dc.getLast hne) := List.getLast?_eq_getLast dc hne
      rw [drawP_eq_reshuffle hdc htop] at h
      cases hs : (shuffle dc.dropLast).getLast? with
      | none => rw [hs] at h; exact Option.noConfusion h
      | some c0 =>
        rw [hs] at h
        simp only [Option.some.injEq, Prod.mk.injEq] at h
        obtain ⟨rfl, rfl, rfl⟩ := h
        have hsn : shuffle dc.dropLast ≠ [] := by
          intro h0
          rw [h0] at hs
          simp at hs
        have hlast : (shuffle dc.dropLast).getLast hsn = c0 := by
          rw [List.getLast?_eq_getLast _ hsn] at hs
          exact Option.some.inj hs
        have e1 : (shuffle dc.dropLast).dropLast ++ [c0] = shuffle dc.dropLast :=
          hlast ▸ List.dropLast_append_getLast hsn
        have e2 : dc.dropLast ++ [dc.getLast hne] = dc := List.dropLast_append_getLast hne
        have P1 : ((c0 :: (shuffle dc.dropLast).dropLast) ++ [dc.getLast hne]).Perm
            ((shuffle dc.dropLast) ++ [dc.getLast hne]) := by
          have := ((List.perm_append_singleton c0 (shuffle dc.dropLast).dropLast).symm).append_right
            [dc.getLast hne]
          rw [e1] at this
          exact this
        have P2 : ((shuffle dc.dropLast) ++ [dc.getLast hne]).Perm dc := by
          have := (hperm dc.dropLast).append_right [dc.getLast hne]
          rw [e2] at this
          exact this
        simpa using P1.trans P2
    · rw [drawP_eq_empty_low hdc] at h
      exact Option.noConfusion h
  · rw [drawP_eq_nonempty hdp] at h
    cases hg : dp.getLast? with
    | none => rw [hg] at h; exact Option.noConfusion h
    | some c0 =>
      rw [hg] at h
      simp only [Option.some.injEq, Prod.mk.injEq] at h
      obtain ⟨rfl, rfl, rfl⟩ := h
      have hlast : dp.getLast hdp = c0 := by
        rw [List.getLast?_eq_getLast _ hdp] at hg
        exact Option.some.inj hg
      have e1 : dp.dropLast ++ [c0] = dp := hlast ▸ List.dropLast_append_getLast hdp
      have P1 : ((c0 :: dp.dropLast) ++ dc).Perm (dp ++ dc) := by
        have := ((List.perm_append_singleton c0 dp.dropLast).symm).append_right dc
        rw [e1] at this
        exact this
      simpa using P1

theorem Room.draw_some {shuffle : List Card → List Card} {r : Room} {c : Card} {r' : Room}
    (h : Room.draw shuffle r = some (c, r')) :
    drawP shuffle (r.draw_pile, r.discard_pile) = some (c, r'.draw_pile, r'.discard_pile) ∧
      r' = { r with draw_pile := r'.draw_pile, discard_pile := r'.discard_pile } := by
  unfold Room.draw at h
  cases hd : drawP shuffle (r.draw_pile, r.discard_pile) with
  | none => rw [hd] at h; simp at h
  | some x =>
    obtain ⟨c0, dp, dc⟩ := x
    rw [hd] at h
    simp only [Option.some.injEq, Prod.mk.injEq] at h
    obtain ⟨rfl, rfl⟩ := h
    exact ⟨rfl, rfl⟩

theorem draw_allCards {shuffle : List Card → List Card} (hperm : ∀ l, (shuffle l).Perm l)
    {r : Room} {c : Card} {r' : Room} (h : Room.draw shuffle r = some (c, r')) :
    c ::ₘ r'.allCards = r.allCards := by
  obtain ⟨hd, hr⟩ := Room.draw_some h
  have hplayers : r'.players = r.players := by rw [hr]
  unfold Room.allCards
  rw [hplayers, Multiset.cons_coe, Multiset.coe_eq_coe]
  have := (drawP_perm hperm hd).append_right (handsOf r.players)
  simpa using this

theorem draw_fields {shuffle : List Card → List Card} {r : Room} {c : Card} {r' : Room}
    (h : Room.draw shuffle r = some (c, r')) :
    r'.players = r.players ∧ r'.current_color = r.current_color ∧
      r'.current_value = r.current_value ∧ r'.current_player_idx = r.current_player_idx ∧
      r'.direction = r.direction ∧ r'.accumulated_draw = r.accumulated_draw ∧
      r'.started = r.started ∧ r'.rules = r.rules := by
  obtain ⟨-, hr⟩ := Room.draw_some h
  rw [hr]
  exact ⟨rfl, rfl, rfl, rfl, rfl, rfl, rfl, rfl⟩

theorem appendToHandAt_nil {i : Nat} {c : Card} : appendToHandAt [] i c = [] := by
  unfold appendToHandAt
  simp

theorem appendToHandAt_cons_zero {a : Player} {ps : List Player} {c : Card} :
    appendToHandAt (a :: ps) 0 c = { a with hand := a.hand ++ [c] } :: ps := by
  unfold appendToHandAt
  simp

theorem appendToHandAt_cons_succ {a : Player} {ps : List Player} {j : Nat} {c : Card} :
    appendToHandAt (a :: ps) (j + 1) c = a :: appendToHandAt ps j c := by
  unfold appendToHandAt
  cases h : ps[j]? with
  | none => simp [h]
  | some p => simp [h]

theorem appendToHandAt_length {ps : List Player} : ∀ {i : Nat} {c : Card},
    (appendToHandAt ps i c).length = ps.length := by
  induction ps with
  | nil => intro i c; rw [appendToHandAt_nil]
  | cons a ps ih =>
    intro i c
    cases i with
    | zero => rw [appendToHandAt_cons_zero]; rfl
    | succ j => rw [appendToHandAt_cons_succ]; simp [ih]

theorem appendToHandAt_map_id {ps : List Player} : ∀ {i : Nat} {c : Card},
    (appendToHandAt ps i c).map Player.id = ps.map Player.id := by
  induction ps with
  | nil => intro i c; rw [appendToHandAt_nil]
  | cons a ps ih =>
    intro i c
    cases i with
    | zero => rw [appendToHandAt_cons_zero]; simp
    | succ j => rw [appendToHandAt_cons_succ]; simp only [List.map_cons, ih]

theorem appendToHandAt_getElem_self {ps : List Player} : ∀ {i : Nat} {c : Card} {p : Player},
    ps[i]? = some p →
      (appendToHandAt ps i c)[i]? = some { p with hand := p.hand ++ [c] } := by
  induction ps with
  | nil => intro i c p h; simp at h
  | cons a ps ih =>
    intro i c p h
    cases i with
    | zero =>
      simp only [List.getElem?_cons_zero, Option.some.injEq] at h
      subst h
      rw [appendToHandAt_cons_zero]
      simp
    | succ j =>
      simp only [List.getElem?_cons_succ] at h
      rw [appendToHandAt_cons_succ]
      simpa using ih h

theorem appendToHandAt_getElem_ne {ps : List Player} {i j : Nat} {c : Card} (hij : i ≠ j) :
    (appendToHandAt ps i c)[j]? = ps[j]? := by
  unfold appendToHandAt
  cases h : ps[i]? with
  | none => rfl
  | some p => exact List.getElem?_set_ne hij

theorem handsOf_appendToHandAt {ps : List Player} :
    ∀ {i : Nat} {p : Player} {c : Card}, ps[i]? = some p →
      (handsOf (appendToHandAt ps i c)).Perm (c :: handsOf ps) := by
  induction ps with
  | nil => intro i p c h; simp at h
  | cons a ps ih =>
    intro i p c h
    cases i with
    | zero =>
      simp only [List.getElem?_cons_zero, Option.some.injEq] at h
      subst h
      rw [appendToHandAt_cons_zero]
      unfold handsOf
      simp only [List.map_cons, List.flatten_cons]
      rw [List.append_assoc]
      exact List.perm_middle.trans (by simp)
    | succ j =>
      simp only [List.getElem?_cons_succ] at h
      rw [appendToHandAt_cons_succ]
      unfold handsOf
      simp only [List.map_cons, List.flatten_cons]
      exact ((ih h).append_left a.hand).trans List.perm_middle

/-! ### `drawLoop` / `draw_cards` lemmas -/

theorem drawLoop_fields {shuffle : List Card → List Card} {i : Nat} :
    ∀ {n : Nat} {r r' : Room}, drawLoop shuffle r i n = some r' →
      r'.players.map Player.id = r.players.map Player.id ∧
        r'.players.length = r.players.length ∧
        r'.current_color = r.current_color ∧ r'.current_value = r.current_value ∧
        r'.current_player_idx = r.current_player_idx ∧ r'.direction = r.direction ∧
        r'.accumulated_draw = r.accumulated_draw ∧ r'.started = r.started ∧
        r'.rules = r.rules := by
  intro n
  induction n with
  | zero =>
    intro r r' h
    simp only [drawLoop, Option.some.injEq] at h
    subst h
    exact ⟨rfl, rfl, rfl, rfl, rfl, rfl, rfl, rfl, rfl⟩
  | succ k ih =>
    intro r r' h
    simp only [drawLoop] at h
    cases hd : Room.draw shuffle r with
    | none => rw [hd] at h; exact Option.noConfusion h
    | some x =>
      obtain ⟨c, r1⟩ := x
      rw [hd] at h
      obtain ⟨hp, -, -, -, -, -, -, -⟩ := draw_fields hd
      obtain ⟨f1, f2, f3, f4, f5, f6, f7, f8, f9⟩ := ih h
      refine ⟨?_, ?_, ?_, ?_, ?_, ?_, ?_, ?_, ?_⟩ <;>
        simp_all [appendToHandAt_map_id, appendToHandAt_length, draw_fields hd]

theorem drawLoop_allCards {shuffle : List Card → List Card}
    (hperm : ∀ l, (shuffle l).Perm l) {i : Nat} :
    ∀ {n : Nat} {r r' : Room}, i < r.players.length → drawLoop shuffle r i n = some r' →
      r'.allCards = r.allCards := by
  intro n
  induction n with
  | zero =>
    intro r r' _ h
    simp only [drawLoop, Option.some.injEq] at h
    subst h
    rfl
  | succ k ih =>
    intro r r' hi h
    simp only [drawLoop] at h
    cases hd : Room.draw shuffle r with
    | none => rw [hd] at h; exact Option.noConfusion h
    | some x =>
      obtain ⟨c, r1⟩ := x
      rw [hd] at h
      obtain ⟨hp, -, -, -, -, -, -, -⟩ := draw_fields hd
      have hi1 : i < r1.players.length := by rw [hp]; exact hi
      obtain ⟨p, hpi⟩ : ∃ p, r1.players[i]? = some p :=
        ⟨r1.players.get ⟨i, hi1⟩, List.getElem?_eq_getElem hi1⟩
      have hi2 : i < (appendToHandAt r1.players i c).length := by
        rw [appendToHandAt_length]; exact hi1
      have h2 := ih hi2 h
      rw [h2]
      have hhands : (handsOf (appendToHandAt r1.players i c)).Perm (c :: handsOf r1.players) :=
        handsOf_appendToHandAt hpi
      have hcons := draw_allCards hperm hd
      rw [← hcons]
      show (↑((r1.draw_pile ++ r1.discard_pile) ++ handsOf (appendToHandAt r1.players i c)) :
          Multiset Card) = c ::ₘ ↑(r1.draw_pile ++ r1.discard_pile ++ handsOf r1.players)
      rw [Multiset.cons_coe, Multiset.coe_eq_coe]
      exact (List.Perm.append_left _ hhands).trans List.perm_middle

theorem drawLoop_hand_at {shuffle : List Card → List Card} {i : Nat} :
    ∀ {n : Nat} {r r' : Room} {p : Player}, r.players[i]? = some p →
      drawLoop shuffle r i n = some r' →
        ∃ p', r'.players[i]? = some p' ∧ p'.hand.length = p.hand.length + n ∧
          p'.id = p.id ∧ p'.score = p.score := by
  intro n
  induction n with
  | zero =>
    intro r r' p hp h
    simp only [drawLoop, Option.some.injEq] at h
    subst h
    exact ⟨p, hp, rfl, rfl, rfl⟩
  | succ k ih =>
    intro r r' p hp h
    simp only [drawLoop] at h
    cases hd : Room.draw shuffle r with
    | none => rw [hd] at h; exact Option.noConfusion h
    | some x =>
      obtain ⟨c, r1⟩ := x
      rw [hd] at h
      obtain ⟨hpl, -, -, -, -, -, -, -⟩ := draw_fields hd
      have hp1 : r1.players[i]? = some p := by rw [hpl]; exact hp
      have hp2 : ({ r1 with players := appendToHandAt r1.players i c } : Room).players[i]? =
          some { p with hand := p.hand ++ [c] } := appendToHandAt_getElem_self hp1
      obtain ⟨p', h1, h2, h3, h4⟩ := ih hp2 h
      refine ⟨p', h1, ?_, h3, h4⟩
      simp only [List.length_append, List.length_cons, List.length_nil] at h2
      omega

theorem drawLoop_hand_other {shuffle : List Card → List Card} {i j : Nat} (hij : i ≠ j) :
    ∀ {n : Nat} {r r' : Room}, drawLoop shuffle r i n = some r' →
      r'.players[j]? = r.players[j]? := by
  intro n
  induction n with
  | zero =>
    intro r r' h
    simp only [drawLoop, Option.some.injEq] at h
    subst h
    rfl
  | succ k ih =>
    intro r r' h
    simp only [drawLoop] at h
    cases hd : Room.draw shuffle r with
    | none => rw [hd] at h; exact Option.noConfusion h
    | some x =>
      obtain ⟨c, r1⟩ := x
      rw [hd] at h
      obtain ⟨hpl, -, -, -, -, -, -, -⟩ := draw_fields hd
      rw [ih h]
      show (appendToHandAt r1.players i c)[j]? = _
      rw [appendToHandAt_getElem_ne hij, hpl]

theorem draw_cards_some {shuffle : List Card → List Card} {r : Room} {i n : Nat} {r' : Room}
    (h : Room.draw_cards shuffle r i n = some r') :
    i < r.players.length ∧ drawLoop shuffle r i n = some r' := by
  unfold Room.draw_cards at h
  by_cases hi : i < r.players.length
  · rw [if_pos hi] at h; exact ⟨hi, h⟩
  · rw [if_neg hi] at h; exact Option.noConfusion h

/-! ### `update_player`, `handsOf`, `find?` lemmas -/

theorem update_player_length {ps : List Player} {pid : String} {f : Player → Player} :
    (update_player ps pid f).length = ps.length := by
  simp [update_player]

theorem update_player_map_id {ps : List Player} {pid : String} {f : Player → Player}
    (hf : ∀ q, (f q).id = q.id) :
    (update_player ps pid f).map Player.id = ps.map Player.id := by
  unfold update_player
  rw [List.map_map]
  apply List.map_congr_left
  intro q _
  by_cases h : q.id = pid <;> simp [h, hf]

theorem update_player_not_mem {ps : List Player} {pid : String} {f : Player → Player}
    (h : ∀ q ∈ ps, ¬ q.id = pid) : update_player ps pid f = ps := by
  unfold update_player
  have : ∀ q ∈ ps, (if q.id = pid then f q else q) = q := by
    intro q hq
    rw [if_neg (h q hq)]
  rw [List.map_congr_left this, List.map_id']

theorem handsOf_update_hand_eq {ps : List Player} {pid : String} {f : Player → Player}
    (hf : ∀ q, (f q).hand = q.hand) :
    handsOf (update_player ps pid f) = handsOf ps := by
  unfold handsOf update_player
  rw [List.map_map]
  congr 1
  apply List.map_congr_left
  intro q _
  by_cases h : q.id = pid <;> simp [h, hf]

theorem update_player_cons {q : Player} {ps : List Player} {pid : String}
    {f : Player → Player} :
    update_player (q :: ps) pid f =
      (if q.id = pid then f q else q) :: update_player ps pid f := rfl

theorem handsOf_cons {q : Player} {ps : List Player} :
    handsOf (q :: ps) = q.hand ++ handsOf ps := rfl

theorem handsOf_update_perm {pid : String} (f : Player → Player) :
    ∀ {ps : List Player} {p : Player}, (ps.map Player.id).Nodup →
      ps.find? (fun q => q.id = pid) = some p →
        (↑(handsOf (update_player ps pid f)) + (↑p.hand : Multiset Card)) =
          ↑(handsOf ps) + (↑(f p).hand : Multiset Card) := by
  intro ps
  induction ps with
  | nil => intro p _ h; simp at h
  | cons q ps ih =>
    intro p hnd hfind
    rw [List.map_cons, List.nodup_cons] at hnd
    obtain ⟨hq_not, hnd'⟩ := hnd
    by_cases hq : q.id = pid
    · rw [List.find?_cons_of_pos _ (by simp [hq])] at hfind
      have hp : q = p := Option.some.inj hfind
      subst hp
      have hrest : update_player ps pid f = ps := by
        apply update_player_not_mem
        intro x hx hxid
        have hmem : x.id ∈ List.map Player.id ps := List.mem_map_of_mem Player.id hx
        rw [hxid, ← hq] at hmem
        exact hq_not hmem
      rw [update_player_cons, if_pos hq, hrest, handsOf_cons, handsOf_cons,
        ← Multiset.coe_add, ← Multiset.coe_add]
      abel
    · rw [List.find?_cons_of_neg _ (by simp [hq])] at hfind
      have key := ih hnd' hfind
      rw [update_player_cons, if_neg hq, handsOf_cons, handsOf_cons,
        ← Multiset.coe_add, ← Multiset.coe_add, add_assoc, add_assoc, key]

theorem find?_update_player {pid : String} (f : Player → Player)
    (hf : ∀ q, (f q).id = q.id) :
    ∀ {ps : List Player} {p : Player}, ps.find? (fun q => q.id = pid) = some p →
      (update_player ps pid f).find? (fun q => q.id = pid) = some (f p) := by
  intro ps
  induction ps with
  | nil => intro p h; simp at h
  | cons q ps ih =>
    intro p hfind
    by_cases hq : q.id = pid
    · rw [List.find?_cons_of_pos _ (by simp [hq])] at hfind
      have hp : q = p := Option.some.inj hfind
      subst hp
      rw [update_player_cons, if_pos hq]
      exact List.find?_cons_of_pos _ (by simp [hf, hq])
    · rw [List.find?_cons_of_neg _ (by simp [hq])] at hfind
      rw [update_player_cons, if_neg hq, List.find?_cons_of_neg _ (by simp [hq])]
      exact ih hfind

theorem scoreSum_update_hand_eq {ps : List Player} {pid pid2 : String} {f : Player → Player}
    (hf : ∀ q, (f q).hand = q.hand ∧ (f q).id = q.id) :
    scoreSum (update_player ps pid f) pid2 = scoreSum ps pid2 := by
  unfold scoreSum update_player
  rw [List.map_map]
  congr 1
  apply List.map_congr_left
  intro q _
  by_cases h : q.id = pid <;> simp [h, (hf q).1, (hf q).2]

/-! ### Turn-cursor arithmetic -/

theorem toNat_emod_lt {a : Int} {n : Nat} (hn : 0 < n) : (a % (n : Int)).toNat < n := by
  have h1 : 0 ≤ a % (n : Int) := Int.emod_nonneg a (by exact_mod_cast Nat.pos_iff_ne_zero.mp hn)
  have h2 : a % (n : Int) < (n : Int) := Int.emod_lt_of_pos a (by exact_mod_cast hn)
  omega

theorem toNat_emod_add_ne {n i : Nat} (h2 : 2 ≤ n) (hi : i < n) {d : Int}
    (hd : d = 1 ∨ d = -1) : (((i : Int) + d) % (n : Int)).toNat ≠ i := by
  rcases hd with rfl | rfl
  · by_cases h : i + 1 < n
    · rw [Int.emod_eq_of_lt (by omega) (by exact_mod_cast h)]
      omega
    · have hn : ((i : Int) + 1) = (n : Int) := by omega
      rw [hn, Int.emod_self]
      omega
  · by_cases h : i = 0
    · have e1 : ((i : Int) + -1) % (n : Int) = ((n : Int) - 1) := by
        have heq : ((i : Int) + -1) % (n : Int) = ((i : Int) + -1 + (n : Int) * 1) % (n : Int) :=
          (Int.add_mul_emod_self_left _ _ _).symm
        rw [heq, Int.emod_eq_of_lt (by omega) (by omega)]
        omega
      rw [e1]
      omega
    · rw [Int.emod_eq_of_lt (by omega) (by omega)]
      omega

theorem toNat_emod_add_two_ne {n i : Nat} (h3 : 3 ≤ n) (hi : i < n) {d : Int}
    (hd : d = 1 ∨ d = -1) : (((i : Int) + d * 2) % (n : Int)).toNat ≠ i := by
  rcases hd with rfl | rfl
  · by_cases h : i + 2 < n
    · rw [Int.emod_eq_of_lt (by omega) (by exact_mod_cast h)]
      omega
    · by_cases h' : i + 2 = n
      · have hn : ((i : Int) + 1 * 2) = (n : Int) := by omega
        rw [hn, Int.emod_self]
        omega
      · have hn : ((i : Int) + 1 * 2) = (n : Int) + 1 := by omega
        rw [hn]
        have e1 : ((n : Int) + 1) % (n : Int) = 1 % (n : Int) := by
          have : ((n : Int) + 1) % (n : Int) = (1 + (n : Int) * 1) % (n : Int) := by ring_nf
          rw [this]
          exact Int.add_mul_emod_self_left _ _ _
        rw [e1, Int.emod_eq_of_lt (by omega) (by omega)]
        omega
  · by_cases h : 2 ≤ i
    · rw [Int.emod_eq_of_lt (by omega) (by omega)]
      omega
    · have e1 : ((i : Int) + -1 * 2) % (n : Int) =
          ((i : Int) + -1 * 2 + (n : Int) * 1) % (n : Int) :=
        (Int.add_mul_emod_self_left _ _ _).symm
      rw [e1, Int.emod_eq_of_lt (by omega) (by omega)]
      omega

theorem next_index_lt {r : Room} (h : 0 < r.players.length) (s : Int) :
    r.next_index s < r.players.length := by
  unfold Room.next_index
  rw [if_neg (by omega)]
  exact toNat_emod_lt h

theorem next_index_one_ne {r : Room} (h2 : 2 ≤ r.players.length)
    (hi : r.current_player_idx < r.players.length)
    (hd : r.direction = 1 ∨ r.direction = -1) :
    r.next_index 1 ≠ r.current_player_idx := by
  unfold Room.next_index
  rw [if_neg (by omega)]
  rw [show r.direction * 1 = r.direction from mul_one _]
  exact toNat_emod_add_ne h2 hi hd

theorem next_index_two_ne {r : Room} (h3 : 3 ≤ r.players.length)
    (hi : r.current_player_idx < r.players.length)
    (hd : r.direction = 1 ∨ r.direction = -1) :
    r.next_index 2 ≠ r.current_player_idx := by
  unfold Room.next_index
  rw [if_neg (by omega)]
  exact toNat_emod_add_two_ne h3 hi hd

/-! ### Conservation through the deal chain -/

theorem dealOneRound_conserve {shuffle : List Card → List Card}
    (hperm : ∀ l, (shuffle l).Perm l) :
    ∀ {ps : List Player} {dp dc : List Card} {ps1 : List Player} {dp1 dc1 : List Card},
      dealOneRound shuffle ps (dp, dc) = some (ps1, (dp1, dc1)) →
        (↑(dp1 ++ dc1 ++ handsOf ps1) : Multiset Card) = ↑(dp ++ dc ++ handsOf ps) := by
  intro ps
  induction ps with
  | nil =>
    intro dp dc ps1 dp1 dc1 h
    simp only [dealOneRound, Option.some.injEq, Prod.mk.injEq] at h
    obtain ⟨rfl, rfl, rfl⟩ := h
    rfl
  | cons p ps ih =>
    intro dp dc ps1 dp1 dc1 h
    simp only [dealOneRound] at h
    cases hd : drawP shuffle (dp, dc) with
    | none => rw [hd] at h; exact Option.noConfusion h
    | some x =>
      obtain ⟨c, dpA, dcA⟩ := x
      simp only [hd] at h
      cases hrec : dealOneRound shuffle ps (dpA, dcA) with
      | none => rw [hrec] at h; exact Option.noConfusion h
      | some y =>
        obtain ⟨psB, pilesB⟩ := y
        obtain ⟨dpB, dcB⟩ := pilesB
        simp only [hrec, Option.some.injEq, Prod.mk.injEq] at h
        obtain ⟨rfl, rfl, rfl⟩ := h
        have ihm := ih hrec
        have hdm : (↑(c :: (dpA ++ dcA)) : Multiset Card) = ↑(dp ++ dc) :=
          Multiset.coe_eq_coe.mpr (drawP_perm hperm hd)
        rw [show (c :: (dpA ++ dcA)) = [c] ++ (dpA ++ dcA) from rfl] at hdm
        simp only [← Multiset.coe_add] at ihm hdm
        calc (↑(dpB ++ dcB ++ handsOf ({ p with hand := p.hand ++ [c] } :: psB)) :
            Multiset Card)
            = (↑dpB + ↑dcB + ↑(handsOf psB)) + (↑p.hand + ↑[c]) := by
              rw [handsOf_cons]
              simp only [← Multiset.coe_add]
              abel
          _ = (↑dpA + ↑dcA + ↑(handsOf ps)) + (↑p.hand + ↑[c]) := by rw [ihm]
          _ = (↑[c] + (↑dpA + ↑dcA)) + (↑p.hand + ↑(handsOf ps)) := by abel
          _ = (↑dp + ↑dc) + (↑p.hand + ↑(handsOf ps)) := by rw [hdm]
          _ = ↑(dp ++ dc ++ handsOf (p :: ps)) := by
              rw [handsOf_cons]
              simp only [← Multiset.coe_add]

theorem dealRounds_conserve {shuffle : List Card → List Card}
    (hperm : ∀ l, (shuffle l).Perm l) :
    ∀ {k : Nat} {r r' : Room}, dealRounds shuffle r k = some r' →
      r'.allCards = r.allCards := by
  intro k
  induction k with
  | zero =>
    intro r r' h
    simp only [dealRounds, Option.some.injEq] at h
    subst h
    rfl
  | succ k ih =>
    intro r r' h
    simp only [dealRounds] at h
    cases hd : dealOneRound shuffle r.players (r.draw_pile, r.discard_pile) with
    | none => rw [hd] at h; exact Option.noConfusion h
    | some y =>
      obtain ⟨ps1, piles1⟩ := y
      obtain ⟨dp1, dc1⟩ := piles1
      rw [hd] at h
      have step := dealOneRound_conserve hperm hd
      have := ih h
      rw [this]
      exact step

theorem flipFirst_conserve {shuffle : List Card → List Card}
    (hperm : ∀ l, (shuffle l).Perm l) :
    ∀ {fuel : Nat} {r : Room} {first : Card} {r' : Room},
      flipFirst shuffle fuel r = some (first, r') →
        first ::ₘ r'.allCards = r.allCards := by
  intro fuel
  induction fuel with
  | zero => intro r first r' h; exact Option.noConfusion h
  | succ fuel ih =>
    intro r first r' h
    simp only [flipFirst] at h
    cases hd : Room.draw shuffle r with
    | none => rw [hd] at h; exact Option.noConfusion h
    | some x =>
      obtain ⟨c, r1⟩ := x
      simp only [hd] at h
      have hcons := draw_allCards hperm hd
      by_cases hw : c.is_wild = true
      · rw [if_pos hw] at h
        have hrr : ({ r1 with draw_pile := shuffle (r1.draw_pile ++ [c]) } : Room).allCards =
            c ::ₘ r1.allCards := by
          show (↑(shuffle (r1.draw_pile ++ [c]) ++ r1.discard_pile ++ handsOf r1.players) :
            Multiset Card) = c ::ₘ ↑(r1.draw_pile ++ r1.discard_pile ++ handsOf r1.players)
          rw [Multiset.cons_coe, Multiset.coe_eq_coe]
          exact (((hperm (r1.draw_pile ++ [c])).append_right r1.discard_pile).append_right
            (handsOf r1.players)).trans
            (((List.perm_append_singleton c r1.draw_pile).append_right
              r1.discard_pile).append_right (handsOf r1.players))
        rw [ih h, hrr]
        exact hcons
      · rw [if_neg hw] at h
        simp only [Option.some.injEq, Prod.mk.injEq] at h
        obtain ⟨rfl, rfl⟩ := h
        exact hcons

theorem draw_cards_allCards {shuffle : List Card → List Card}
    (hperm : ∀ l, (shuffle l).Perm l) {r : Room} {i n : Nat} {r' : Room}
    (h : Room.draw_cards shuffle r i n = some r') : r'.allCards = r.allCards := by
  obtain ⟨hi, hl⟩ := draw_cards_some h
  exact drawLoop_allCards hperm hi hl

theorem apply_flip_conserve {shuffle : List Card → List Card}
    (hperm : ∀ l, (shuffle l).Perm l) {r : Room} {first : Card} {r' : Room}
    (h : Room.apply_flip shuffle r first = some r') : r'.allCards = r.allCards := by
  unfold Room.apply_flip at h
  split_ifs at h with h1 h2 h3 h4
  · obtain rfl := Option.some.inj h
    rfl
  · obtain rfl := Option.some.inj h
    rfl
  · obtain rfl := Option.some.inj h
    rfl
  · cases hd : Room.draw_cards shuffle r (r.next_index 1) 2 with
    | none => rw [hd] at h; exact Option.noConfusion h
    | some r1 =>
      rw [hd] at h
      obtain rfl := Option.some.inj h
      show (↑(r1.draw_pile ++ r1.discard_pile ++ handsOf r1.players) : Multiset Card) =
        r.allCards
      exact draw_cards_allCards hperm hd
  · obtain rfl := Option.some.inj h
    rfl

theorem handsOf_clearHands {ps : List Player} : handsOf (clearHands ps) = [] := by
  induction ps with
  | nil => rfl
  | cons p ps ih =>
    show handsOf ({ p with hand := [], said_uno := false } :: clearHands ps) = []
    rw [handsOf_cons, ih]
    rfl

theorem deal_conserve {shuffle : List Card → List Card}
    (hperm : ∀ l, (shuffle l).Perm l) {fuel : Nat} {r r' : Room}
    (h : Room.deal shuffle fuel r = some r') :
    r'.allCards = ↑(r.draw_pile ++ r.discard_pile) := by
  unfold Room.deal at h
  cases h1 : dealRounds shuffle { r with players := clearHands r.players } 7 with
  | none => simp [h1] at h
  | some r1 =>
    simp only [h1] at h
    cases h2 : flipFirst shuffle fuel r1 with
    | none => simp [h2] at h
    | some x =>
      obtain ⟨first, r2⟩ := x
      simp only [h2] at h
      have c0 : ({ r with players := clearHands r.players } : Room).allCards =
          ↑(r.draw_pile ++ r.discard_pile) := by
        show (↑(r.draw_pile ++ r.discard_pile ++ handsOf (clearHands r.players)) :
          Multiset Card) = _
        rw [handsOf_clearHands]
        simp
      have c1 := dealRounds_conserve hperm h1
      have c2 := flipFirst_conserve hperm h2
      have c3 := apply_flip_conserve hperm h
      rw [c3]
      have c4 : ({ r2 with
          discard_pile := r2.discard_pile ++ [first]
          current_color := some first.color
          current_value := some first.value
          current_player_idx := 0
          direction := 1
          accumulated_draw := 0 } : Room).allCards = first ::ₘ r2.allCards := by
        show (↑(r2.draw_pile ++ (r2.discard_pile ++ [first]) ++ handsOf r2.players) :
          Multiset Card) = first ::ₘ ↑(r2.draw_pile ++ r2.discard_pile ++ handsOf r2.players)
        rw [Multiset.cons_coe, Multiset.coe_eq_coe]
        have s1 : ((r2.draw_pile ++ (r2.discard_pile ++ [first])) ++
            handsOf r2.players).Perm
            ((r2.draw_pile ++ (first :: r2.discard_pile)) ++ handsOf r2.players) :=
          ((List.perm_append_singleton first r2.discard_pile).append_left
            r2.draw_pile).append_right (handsOf r2.players)
        have s2 : ((r2.draw_pile ++ (first :: r2.discard_pile)) ++
            handsOf r2.players).Perm
            (first :: (r2.draw_pile ++ r2.discard_pile ++ handsOf r2.players)) :=
          List.Perm.append_right (handsOf r2.players) List.perm_middle
        exact s1.trans s2
      rw [c4, c2, c1, c0]

theorem handle_start_conserve {shuffle : List Card → List Card}
    (hperm : ∀ l, (shuffle l).Perm l) {fuel : Nat} {r r1 : Room} {res : StartResult}
    (h : handle_start shuffle fuel r = some (r1, res)) (hres : res = .started) :
    r1.allCards = deck108 := by
  subst hres
  unfold handle_start at h
  by_cases hlen : r.players.length < 2
  · rw [if_pos hlen] at h
    simp at h
  · rw [if_neg hlen] at h
    cases hdeal : Room.deal shuffle fuel (Room.build_deck shuffle r) with
    | none => rw [hdeal] at h; exact Option.noConfusion h
    | some r2 =>
      simp only [hdeal, Option.some.injEq, Prod.mk.injEq] at h
      obtain ⟨rfl, -⟩ := h
      have hc := deal_conserve hperm hdeal
      have h1 : ({ r2 with started := true } : Room).allCards = r2.allCards := rfl
      rw [h1, hc]
      have hb1 : (Room.build_deck shuffle r).draw_pile = shuffle deckList := rfl
      have hb2 : (Room.build_deck shuffle r).discard_pile = [] := rfl
      rw [hb1, hb2, List.append_nil]
      unfold deck108
      exact Multiset.coe_eq_coe.mpr (hperm deckList)

/-! ### `calloutUno` loop lemmas -/

theorem calloutLoop_conserve {shuffle : List Card → List Card}
    (hperm : ∀ l, (shuffle l).Perm l) :
    ∀ {ps : List Player} {dp dc : List Card} {ps1 : List Player}
      {piles1 : List Card × List Card} {offs : List String},
      calloutLoop shuffle ps (dp, dc) = some (ps1, piles1, offs) →
        (↑(piles1.1 ++ piles1.2 ++ handsOf ps1) : Multiset Card) =
          ↑(dp ++ dc ++ handsOf ps) := by
  intro ps
  induction ps with
  | nil =>
    intro dp dc ps1 piles1 offs h
    simp only [calloutLoop, Option.some.injEq, Prod.mk.injEq] at h
    obtain ⟨rfl, rfl, rfl⟩ := h
    rfl
  | cons p ps ih =>
    intro dp dc ps1 piles1 offs h
    simp only [calloutLoop] at h
    by_cases hc : p.hand.length = 1 ∧ p.said_uno = false
    · rw [if_pos hc] at h
      cases hd1 : drawP shuffle (dp, dc) with
      | none => rw [hd1] at h; exact Option.noConfusion h
      | some x1 =>
        obtain ⟨c1, dpA, dcA⟩ := x1
        simp only [hd1] at h
        cases hd2 : drawP shuffle (dpA, dcA) with
        | none => rw [hd2] at h; exact Option.noConfusion h
        | some x2 =>
          obtain ⟨c2, dpB, dcB⟩ := x2
          simp only [hd2] at h
          cases hrec : calloutLoop shuffle ps (dpB, dcB) with
          | none => rw [hrec] at h; exact Option.noConfusion h
          | some y =>
            obtain ⟨psC, pilesC, offs0⟩ := y
            simp only [hrec, Option.some.injEq, Prod.mk.injEq] at h
            obtain ⟨rfl, rfl, rfl⟩ := h
            have ihm := ih hrec
            have m1 : (↑[c1] + ((↑dpA : Multiset Card) + ↑dcA)) = ↑dp + ↑dc := by
              have := Multiset.coe_eq_coe.mpr (drawP_perm hperm hd1)
              rw [show (c1 :: (dpA ++ dcA)) = [c1] ++ (dpA ++ dcA) from rfl] at this
              simpa only [← Multiset.coe_add] using this
            have m2 : (↑[c2] + ((↑dpB : Multiset Card) + ↑dcB)) = ↑dpA + ↑dcA := by
              have := Multiset.coe_eq_coe.mpr (drawP_perm hperm hd2)
              rw [show (c2 :: (dpB ++ dcB)) = [c2] ++ (dpB ++ dcB) from rfl] at this
              simpa only [← Multiset.coe_add] using this
            simp only [← Multiset.coe_add] at ihm
            calc (↑(pilesC.1 ++ pilesC.2 ++
                handsOf ({ p with hand := p.hand ++ [c1, c2] } :: psC)) : Multiset Card)
                = (↑pilesC.1 + ↑pilesC.2 + ↑(handsOf psC)) +
                    (↑p.hand + (↑[c1] + ↑[c2])) := by
                  rw [handsOf_cons,
                    show (p.hand ++ [c1, c2]) = p.hand ++ ([c1] ++ [c2]) from rfl]
                  simp only [← Multiset.coe_add]
                  abel
              _ = (↑dpB + ↑dcB + ↑(handsOf ps)) + (↑p.hand + (↑[c1] + ↑[c2])) := by
                  rw [ihm]
              _ = (↑[c2] + (↑dpB + ↑dcB)) + (↑p.hand + ↑[c1] + ↑(handsOf ps)) := by abel
              _ = (↑dpA + ↑dcA) + (↑p.hand + ↑[c1] + ↑(handsOf ps)) := by rw [m2]
              _ = (↑[c1] + (↑dpA + ↑dcA)) + (↑p.hand + ↑(handsOf ps)) := by abel
              _ = (↑dp + ↑dc) + (↑p.hand + ↑(handsOf ps)) := by rw [m1]
              _ = ↑(dp ++ dc ++ handsOf (p :: ps)) := by
                  rw [handsOf_cons]
                  simp only [← Multiset.coe_add]
    · rw [if_neg hc] at h
      cases hrec : calloutLoop shuffle ps (dp, dc) with
      | none => rw [hrec] at h; exact Option.noConfusion h
      | some y =>
        obtain ⟨psC, pilesC, offs0⟩ := y
        simp only [hrec, Option.some.injEq, Prod.mk.injEq] at h
        obtain ⟨rfl, rfl, rfl⟩ := h
        have ihm := ih hrec
        simp only [← Multiset.coe_add] at ihm
        calc (↑(pilesC.1 ++ pilesC.2 ++ handsOf (p :: psC)) : Multiset Card)
            = (↑pilesC.1 + ↑pilesC.2 + ↑(handsOf psC)) + ↑p.hand := by
              rw [handsOf_cons]
              simp only [← Multiset.coe_add]
              abel
          _ = (↑dp + ↑dc + ↑(handsOf ps)) + ↑p.hand := by rw [ihm]
          _ = ↑(dp ++ dc ++ handsOf (p :: ps)) := by
              rw [handsOf_cons]
              simp only [← Multiset.coe_add]
              abel

theorem calloutLoop_pointwise {shuffle : List Card → List Card} :
    ∀ {ps : List Player} {piles : List Card × List Card} {ps1 : List Player}
      {piles1 : List Card × List Card} {offs : List String},
      calloutLoop shuffle ps piles = some (ps1, piles1, offs) →
        ps1.length = ps.length ∧
          ∀ (i : Nat) (p : Player), ps[i]? = some p →
            (p.hand.length = 1 ∧ p.said_uno = false →
              ∃ c1 c2, ps1[i]? = some { p with hand := p.hand ++ [c1, c2] } ∧
                p.id ∈ offs) ∧
            (¬(p.hand.length = 1 ∧ p.said_uno = false) → ps1[i]? = some p) := by
  intro ps
  induction ps with
  | nil =>
    intro piles ps1 piles1 offs h
    simp only [calloutLoop, Option.some.injEq, Prod.mk.injEq] at h
    obtain ⟨rfl, rfl, rfl⟩ := h
    exact ⟨rfl, fun i p hp => by simp at hp⟩
  | cons p ps ih =>
    intro piles ps1 piles1 offs h
    simp only [calloutLoop] at h
    by_cases hc : p.hand.length = 1 ∧ p.said_uno = false
    · rw [if_pos hc] at h
      cases hd1 : drawP shuffle piles with
      | none => rw [hd1] at h; exact Option.noConfusion h
      | some x1 =>
        obtain ⟨c1, dpA, dcA⟩ := x1
        simp only [hd1] at h
        cases hd2 : drawP shuffle (dpA, dcA) with
        | none => rw [hd2] at h; exact Option.noConfusion h
        | some x2 =>
          obtain ⟨c2, dpB, dcB⟩ := x2
          simp only [hd2] at h
          cases hrec : calloutLoop shuffle ps (dpB, dcB) with
          | none => rw [hrec] at h; exact Option.noConfusion h
          | some y =>
            obtain ⟨psC, pilesC, offs0⟩ := y
            simp only [hrec, Option.some.injEq, Prod.mk.injEq] at h
            obtain ⟨rfl, rfl, rfl⟩ := h
            obtain ⟨ihlen, ihpt⟩ := ih hrec
            refine ⟨by simp [ihlen], ?_⟩
            intro i q hq
            cases i with
            | zero =>
              simp only [List.getElem?_cons_zero, Option.some.injEq] at hq
              subst hq
              constructor
              · intro _
                exact ⟨c1, c2, by simp, List.mem_cons_self _ _⟩
              · intro hfalse
                exact absurd hc hfalse
            | succ j =>
              simp only [List.getElem?_cons_succ] at hq
              obtain ⟨h1, h2⟩ := ihpt j q hq
              constructor
              · intro hcond
                obtain ⟨d1, d2, hd, hmem⟩ := h1 hcond
                exact ⟨d1, d2, by simpa using hd, List.mem_cons_of_mem _ hmem⟩
              · intro hcond
                simpa using h2 hcond
    · rw [if_neg hc] at h
      cases hrec : calloutLoop shuffle ps piles with
      | none => rw [hrec] at h; exact Option.noConfusion h
      | some y =>
        obtain ⟨psC, pilesC, offs0⟩ := y
        simp only [hrec, Option.some.injEq, Prod.mk.injEq] at h
        obtain ⟨rfl, rfl, rfl⟩ := h
        obtain ⟨ihlen, ihpt⟩ := ih hrec
        refine ⟨by simp [ihlen], ?_⟩
        intro i q hq
        cases i with
        | zero =>
          simp only [List.getElem?_cons_zero, Option.some.injEq] at hq
          subst hq
          exact ⟨fun hcond => absurd hcond hc, fun _ => by simp⟩
        | succ j =>
          simp only [List.getElem?_cons_succ] at hq
          obtain ⟨h1, h2⟩ := ihpt j q hq
          constructor
          · intro hcond
            obtain ⟨d1, d2, hd, hmem⟩ := h1 hcond
            exact ⟨d1, d2, by simpa using hd, hmem⟩
          · intro hcond
            simpa using h2 hcond

theorem handle_calloutUno_spec {shuffle : List Card → List Card} {r : Room}
    {caller : Option String} {r' : Room} {res : CalloutResult}
    (h : handle_calloutUno shuffle r caller = some (r', res)) :
    ∃ ps1 piles1 offs,
      calloutLoop shuffle r.players (r.draw_pile, r.discard_pile) =
          some (ps1, piles1, offs) ∧
        r' = { r with players := ps1, draw_pile := piles1.1, discard_pile := piles1.2 } ∧
        ((¬ offs = [] ∧ res = .broadcastPenalty offs caller) ∨
          (offs = [] ∧ res = .emptyToSender)) := by
  unfold handle_calloutUno at h
  cases hc : calloutLoop shuffle r.players (r.draw_pile, r.discard_pile) with
  | none => rw [hc] at h; exact Option.noConfusion h
  | some y =>
    obtain ⟨ps1, piles1, offs⟩ := y
    simp only [hc] at h
    by_cases hoffs : offs = []
    · rw [if_neg (by simp [hoffs])] at h
      simp only [Option.some.injEq, Prod.mk.injEq] at h
      exact ⟨ps1, piles1, offs, rfl, h.1.symm, Or.inr ⟨hoffs, h.2.symm⟩⟩
    · rw [if_pos hoffs] at h
      simp only [Option.some.injEq, Prod.mk.injEq] at h
      exact ⟨ps1, piles1, offs, rfl, h.1.symm, Or.inl ⟨hoffs, h.2.symm⟩⟩

theorem handle_sayUno_allCards {r : Room} {pid? : Option String} :
    ((handle_sayUno r pid?).1).allCards = r.allCards := by
  cases pid? with
  | none => rfl
  | some pid =>
    by_cases hm : r.has_player pid = true
    · have hred : handle_sayUno r (some pid) =
          ({ r with players := update_player r.players pid fun p =>
             if p.hand.length = 1 then { p with said_uno := true } else p }, .saidUno) := by
        simp only [handle_sayUno, if_pos hm]
      rw [hred]
      show (↑(r.draw_pile ++ r.discard_pile ++ handsOf (update_player r.players pid _)) :
        Multiset Card) = _
      rw [handsOf_update_hand_eq (by intro q; by_cases hq : q.hand.length = 1 <;> simp [hq])]
      rfl
    · have hred : handle_sayUno r (some pid) = (r, .silent) := by
        simp only [handle_sayUno, if_neg hm]
      rw [hred]

/-! ### Handler forward lemmas -/

theorem findIdx?_card_spec {hand : List Card} {card : Card} {i : Nat}
    (h : (hand.findIdx? fun c => c.color = card.color ∧ c.value = card.value) = some i) :
    hand[i]? = some card := by
  rw [List.findIdx?_eq_some_iff_getElem] at h
  obtain ⟨hlt, hp, -⟩ := h
  cases hq : hand[i]? with
  | none =>
    rw [List.getElem?_eq_none_iff] at hq
    omega
  | some c =>
    obtain ⟨h2, hc⟩ := List.getElem?_eq_some.mp hq
    rw [hc] at hp
    have hpc : c.color = card.color ∧ c.value = card.value := of_decide_eq_true hp
    have hceq : c = card := by
      cases c with
      | mk cc cv =>
        cases card with
        | mk dc dv =>
          simp only [Card.mk.injEq] at hpc
          simp [hpc.1, hpc.2]
    rw [hceq]

theorem handle_playCard_played {shuffle : List Card → List Card} {r : Room}
    {pid? : Option String} {card : Card} {choose? : Option String} {r' : Room}
    {w : Option String}
    (h : handle_playCard shuffle r pid? card choose? = some (r', .played w)) :
    ∃ pid p found_idx cp,
      pid? = some pid ∧ r.started = true ∧
        r.current_player = some (some cp) ∧ cp.id = pid ∧
        r.find_player pid = some p ∧
        (p.hand.findIdx? fun c => c.color = card.color ∧ c.value = card.value) =
            some found_idx ∧
        r.can_play card = true ∧
        play_effect shuffle r pid p found_idx choose? = some (r', w) := by
  unfold handle_playCard at h
  split at h
  next hst => exact absurd h (by simp)
  next hst =>
    simp only [Bool.not_eq_false] at hst
    split at h
    next => exact absurd h (by simp)
    next pid =>
      split at h
      next hval => exact absurd h (by simp)
      next hval =>
        split at h
        next hcp => exact Option.noConfusion h
        next cur hcp =>
          split at h
          next hturn => exact absurd h (by simp)
          next hturn =>
            rw [not_not] at hturn
            obtain ⟨cp, rfl⟩ : ∃ cp, cur = some cp := by
              cases cur with
              | none => simp at hturn
              | some cp => exact ⟨cp, rfl⟩
            have hcpid : cp.id = pid := by simpa using hturn
            split at h
            next hfp => exact Option.noConfusion h
            next p hfp =>
              split at h
              next hfi => exact absurd h (by simp)
              next found_idx hfi =>
                split at h
                next hcan => exact absurd h (by simp)
                next hcan =>
                  rw [Bool.not_eq_false] at hcan
                  cases hpe : play_effect shuffle r pid p found_idx choose? with
                  | none => rw [hpe] at h; exact Option.noConfusion h
                  | some x =>
                    obtain ⟨r5, w5⟩ := x
                    rw [hpe] at h
                    simp only [Option.map_some', Option.some.injEq, Prod.mk.injEq,
                      PlayResult.played.injEq] at h
                    obtain ⟨rfl, rfl⟩ := h
                    exact ⟨pid, p, found_idx, cp, rfl, hst, hcp, hcpid, hfp, hfi, hcan, hpe⟩

theorem handle_playCard_err {shuffle : List Card → List Card} {r : Room}
    {pid? : Option String} {card : Card} {choose? : Option String} {r' : Room} {e : WsErr}
    (h : handle_playCard shuffle r pid? card choose? = some (r', .err e)) : r' = r := by
  unfold handle_playCard at h
  split at h
  next => simp only [Option.some.injEq, Prod.mk.injEq] at h; exact h.1.symm
  next =>
    split at h
    next => simp only [Option.some.injEq, Prod.mk.injEq] at h; exact h.1.symm
    next pid =>
      split at h
      next => simp only [Option.some.injEq, Prod.mk.injEq] at h; exact h.1.symm
      next =>
        split at h
        next => exact Option.noConfusion h
        next cur hcp =>
          split at h
          next => simp only [Option.some.injEq, Prod.mk.injEq] at h; exact h.1.symm
          next =>
            split at h
            next => exact Option.noConfusion h
            next p hfp =>
              split at h
              next => simp only [Option.some.injEq, Prod.mk.injEq] at h; exact h.1.symm
              next found_idx hfi =>
                split at h
                next => simp only [Option.some.injEq, Prod.mk.injEq] at h; exact h.1.symm
                next =>
                  cases hpe : play_effect shuffle r pid p found_idx choose? with
                  | none => rw [hpe] at h; exact Option.noConfusion h
                  | some x =>
                    rw [hpe] at h
                    simp at h

theorem handle_drawCard_drew {shuffle : List Card → List Card} {r : Room}
    {pid? : Option String} {r' : Room}
    (h : handle_drawCard shuffle r pid? = some (r', .drew)) :
    ∃ pid cp,
      pid? = some pid ∧ r.started = true ∧
        r.current_player = some (some cp) ∧ cp.id = pid ∧
        ((0 < r.accumulated_draw ∧
            ∃ r1, Room.draw_cards shuffle r r.current_player_idx r.accumulated_draw =
                some r1 ∧
              r' = { r1 with accumulated_draw := 0, current_player_idx := r1.next_index 1 }) ∨
          (r.accumulated_draw = 0 ∧
            ∃ r1, Room.draw_cards shuffle r r.current_player_idx 1 = some r1 ∧
              r' = { r1 with current_player_idx := r1.next_index 1 })) := by
  unfold handle_drawCard at h
  split at h
  next => exact absurd h (by simp)
  next hst =>
    simp only [Bool.not_eq_false] at hst
    split at h
    next => exact absurd h (by simp)
    next pid =>
      split at h
      next => exact absurd h (by simp)
      next hval =>
        split at h
        next => exact Option.noConfusion h
        next cur hcp =>
          split at h
          next => exact absurd h (by simp)
          next hturn =>
            rw [not_not] at hturn
            obtain ⟨cp, rfl⟩ : ∃ cp, cur = some cp := by
              cases cur with
              | none => simp at hturn
              | some cp => exact ⟨cp, rfl⟩
            have hcpid : cp.id = pid := by simpa using hturn
            split at h
            next hacc =>
              cases hdc : Room.draw_cards shuffle r r.current_player_idx
                  r.accumulated_draw with
              | none => rw [hdc] at h; exact Option.noConfusion h
              | some r1 =>
                rw [hdc] at h
                simp only [Option.some.injEq, Prod.mk.injEq] at h
                exact ⟨pid, cp, rfl, hst, hcp, hcpid,
                  Or.inl ⟨hacc, r1, rfl, h.1.symm⟩⟩
            next hacc =>
              have hacc0 : r.accumulated_draw = 0 := by omega
              cases hdc : Room.draw_cards shuffle r r.current_player_idx 1 with
              | none => rw [hdc] at h; exact Option.noConfusion h
              | some r1 =>
                rw [hdc] at h
                simp only [Option.some.injEq, Prod.mk.injEq] at h
                exact ⟨pid, cp, rfl, hst, hcp, hcpid,
                  Or.inr ⟨hacc0, r1, rfl, h.1.symm⟩⟩

theorem handle_drawCard_err {shuffle : List Card → List Card} {r : Room}
    {pid? : Option String} {r' : Room} {e : WsErr}
    (h : handle_drawCard shuffle r pid? = some (r', .err e)) : r' = r := by
  unfold handle_drawCard at h
  split at h
  next => simp only [Option.some.injEq, Prod.mk.injEq] at h; exact h.1.symm
  next =>
    split at h
    next => simp only [Option.some.injEq, Prod.mk.injEq] at h; exact h.1.symm
    next pid =>
      split at h
      next => simp only [Option.some.injEq, Prod.mk.injEq] at h; exact h.1.symm
      next =>
        split at h
        next => exact Option.noConfusion h
        next cur hcp =>
          split at h
          next => simp only [Option.some.injEq, Prod.mk.injEq] at h; exact h.1.symm
          next =>
            split at h
            next =>
              cases hdc : Room.draw_cards shuffle r r.current_player_idx
                  r.accumulated_draw with
              | none => rw [hdc] at h; exact Option.noConfusion h
              | some r1 => rw [hdc] at h; simp at h
            next =>
              cases hdc : Room.draw_cards shuffle r r.current_player_idx 1 with
              | none => rw [hdc] at h; exact Option.noConfusion h
              | some r1 => rw [hdc] at h; simp at h

theorem play_effect_some {shuffle : List Card → List Card} {r : Room} {pid : String}
    {p : Player} {found_idx : Nat} {choose? : Option String} {r' : Room}
    {w : Option String} {played : Card} (hfi : p.hand[found_idx]? = some played)
    (h : play_effect shuffle r pid p found_idx choose? = some (r', w)) :
    ∃ r4, turn_step shuffle (pop_to_discard r pid (p.hand.eraseIdx found_idx) played)
        played choose? = some r4 ∧
      (r', w) = finish_play r4 pid (p.hand.eraseIdx found_idx) := by
  unfold play_effect at h
  simp only [hfi] at h
  cases hts : turn_step shuffle (pop_to_discard r pid (p.hand.eraseIdx found_idx) played)
      played choose? with
  | none => rw [hts] at h; exact Option.noConfusion h
  | some r4 =>
    rw [hts] at h
    exact ⟨r4, rfl, (Option.some.inj h).symm⟩

/-! ### `turn_step` branch equations -/

theorem turn_step_wild4 {shuffle : List Card → List Card} {r1 : Room} {played : Card}
    {choose? : Option String} (hw : played.value = "wildDrawFour") :
    turn_step shuffle r1 played choose? =
      some { r1 with
             current_color := if truthy choose? then choose? else r1.current_color
             current_value := some played.value
             accumulated_draw := r1.accumulated_draw + 4
             current_player_idx := r1.next_index 1 } := by
  have hwild : played.is_wild = true := by simp [Card.is_wild, hw]
  unfold turn_step
  rw [if_pos hwild, if_pos hw]
  rfl

theorem turn_step_wild {shuffle : List Card → List Card} {r1 : Room} {played : Card}
    {choose? : Option String} (hw : played.value = "wild") :
    turn_step shuffle r1 played choose? =
      some { r1 with
             current_color := if truthy choose? then choose? else r1.current_color
             current_value := some played.value
             current_player_idx := r1.next_index 1 } := by
  have hwild : played.is_wild = true := by simp [Card.is_wild, hw]
  have hw4 : ¬ played.value = "wildDrawFour" := by rw [hw]; decide
  unfold turn_step
  rw [if_pos hwild, if_neg hw4]
  rfl

theorem turn_step_skip {shuffle : List Card → List Card} {r1 : Room} {played : Card}
    {choose? : Option String} (hv : played.value = "skip") :
    turn_step shuffle r1 played choose? =
      some { r1 with
             current_color := some played.color
             current_value := some played.value
             current_player_idx := r1.next_index 2 } := by
  have hwild : ¬ played.is_wild = true := by simp [Card.is_wild, hv]
  unfold turn_step
  rw [if_neg hwild, if_pos hv]
  rfl

theorem turn_step_reverse {shuffle : List Card → List Card} {r1 : Room} {played : Card}
    {choose? : Option String} (hv : played.value = "reverse") :
    turn_step shuffle r1 played choose? =
      some { r1 with
             current_color := some played.color
             current_value := some played.value
             direction := r1.direction * (-1)
             current_player_idx :=
               ({ r1 with direction := r1.direction * (-1) } : Room).next_index 1 } := by
  have hwild : ¬ played.is_wild = true := by simp [Card.is_wild, hv]
  have h1 : ¬ played.value = "skip" := by rw [hv]; decide
  unfold turn_step
  rw [if_neg hwild, if_neg h1, if_pos hv]
  rfl

theorem turn_step_drawTwo_stack {shuffle : List Card → List Card} {r1 : Room}
    {played : Card} {choose? : Option String} (hv : played.value = "drawTwo")
    (hst : r1.rules.stackingPlus = true) :
    turn_step shuffle r1 played choose? =
      some { r1 with
             current_color := some played.color
             current_value := some played.value
             accumulated_draw := r1.accumulated_draw + 2
             current_player_idx := r1.next_index 1 } := by
  have hwild : ¬ played.is_wild = true := by simp [Card.is_wild, hv]
  have h1 : ¬ played.value = "skip" := by rw [hv]; decide
  have h2 : ¬ played.value = "reverse" := by rw [hv]; decide
  unfold turn_step
  rw [if_neg hwild, if_neg h1, if_neg h2, if_pos hv, if_pos hst]
  rfl

theorem turn_step_drawTwo_nostack {shuffle : List Card → List Card} {r1 : Room}
    {played : Card} {choose? : Option String} (hv : played.value = "drawTwo")
    (hst : r1.rules.stackingPlus = false) :
    turn_step shuffle r1 played choose? =
      match Room.draw_cards shuffle
          { r1 with current_color := some played.color, current_value := some played.value }
          (r1.next_index 1) 2 with
      | none => none
      | some r3 => some { r3 with current_player_idx := r3.next_index 1 } := by
  have hwild : ¬ played.is_wild = true := by simp [Card.is_wild, hv]
  have h1 : ¬ played.value = "skip" := by rw [hv]; decide
  have h2 : ¬ played.value = "reverse" := by rw [hv]; decide
  have hst' : ¬ r1.rules.stackingPlus = true := by rw [hst]; decide
  unfold turn_step
  rw [if_neg hwild, if_neg h1, if_neg h2, if_pos hv, if_neg hst']
  rfl

theorem turn_step_plain {shuffle : List Card → List Card} {r1 : Room} {played : Card}
    {choose? : Option String} (hw : played.is_wild = false)
    (h1 : ¬ played.value = "skip") (h2 : ¬ played.value = "reverse")
    (h3 : ¬ played.value = "drawTwo") :
    turn_step shuffle r1 played choose? =
      some { r1 with
             current_color := some played.color
             current_value := some played.value
             current_player_idx := r1.next_index 1 } := by
  have hwild : ¬ played.is_wild = true := by rw [hw]; decide
  unfold turn_step
  rw [if_neg hwild, if_neg h1, if_neg h2, if_neg h3]
  rfl

/-! ### State-tracking lemmas for the turn logic -/

theorem next_index_def {r : Room} {s : Int} :
    r.next_index s = stepIdx r.players.length r.current_player_idx r.direction s := rfl

theorem next_index_congr {r1 r2 : Room} (hl : r1.players.length = r2.players.length)
    (hi : r1.current_player_idx = r2.current_player_idx)
    (hd : r1.direction = r2.direction) (s : Int) :
    r1.next_index s = r2.next_index s := by
  rw [next_index_def, next_index_def, hl, hi, hd]

theorem pop_to_discard_fields (r : Room) (pid : String) (hand1 : List Card) (played : Card) :
    (pop_to_discard r pid hand1 played).players.length = r.players.length ∧
      (pop_to_discard r pid hand1 played).players.map Player.id = r.players.map Player.id ∧
      (pop_to_discard r pid hand1 played).current_player_idx = r.current_player_idx ∧
      (pop_to_discard r pid hand1 played).direction = r.direction ∧
      (pop_to_discard r pid hand1 played).started = r.started ∧
      (pop_to_discard r pid hand1 played).rules = r.rules ∧
      (pop_to_discard r pid hand1 played).current_color = r.current_color ∧
      (pop_to_discard r pid hand1 played).accumulated_draw = r.accumulated_draw := by
  refine ⟨update_player_length, update_player_map_id (by intro q; rfl), rfl, rfl, rfl,
    rfl, rfl, rfl⟩

theorem find?_score_appendToHandAt {ps : List Player} {pid : String} :
    ∀ {i : Nat} {c : Card},
      (((appendToHandAt ps i c).find? fun q => q.id = pid).map Player.score) =
        ((ps.find? fun q => q.id = pid).map Player.score) := by
  induction ps with
  | nil => intro i c; rw [appendToHandAt_nil]
  | cons a ps ih =>
    intro i c
    cases i with
    | zero =>
      rw [appendToHandAt_cons_zero]
      by_cases ha : a.id = pid
      · rw [List.find?_cons_of_pos _ (by simp [ha]), List.find?_cons_of_pos _ (by simp [ha])]
        rfl
      · rw [List.find?_cons_of_neg _ (by simp [ha]), List.find?_cons_of_neg _ (by simp [ha])]
    | succ j =>
      rw [appendToHandAt_cons_succ]
      by_cases ha : a.id = pid
      · rw [List.find?_cons_of_pos _ (by simp [ha]), List.find?_cons_of_pos _ (by simp [ha])]
      · rw [List.find?_cons_of_neg _ (by simp [ha]), List.find?_cons_of_neg _ (by simp [ha])]
        exact ih

theorem drawLoop_find_score {shuffle : List Card → List Card} {i : Nat} {pid : String} :
    ∀ {n : Nat} {r r' : Room}, drawLoop shuffle r i n = some r' →
      ((r'.players.find? fun q => q.id = pid).map Player.score) =
        ((r.players.find? fun q => q.id = pid).map Player.score) := by
  intro n
  induction n with
  | zero =>
    intro r r' h
    simp only [drawLoop, Option.some.injEq] at h
    subst h
    rfl
  | succ k ih =>
    intro r r' h
    simp only [drawLoop] at h
    cases hd : Room.draw shuffle r with
    | none => rw [hd] at h; exact Option.noConfusion h
    | some x =>
      obtain ⟨c, r1⟩ := x
      rw [hd] at h
      obtain ⟨hpl, -⟩ := draw_fields hd
      rw [ih h]
      show (((appendToHandAt r1.players i c).find? fun q => q.id = pid).map Player.score) = _
      rw [find?_score_appendToHandAt, hpl]

theorem draw_cards_state {shuffle : List Card → List Card} {r : Room} {i n : Nat}
    {r' : Room} (h : Room.draw_cards shuffle r i n = some r') :
    r'.players.map Player.id = r.players.map Player.id ∧
      r'.players.length = r.players.length ∧
      r'.current_color = r.current_color ∧ r'.current_value = r.current_value ∧
      r'.current_player_idx = r.current_player_idx ∧ r'.direction = r.direction ∧
      r'.accumulated_draw = r.accumulated_draw ∧ r'.started = r.started ∧
      r'.rules = r.rules ∧
      (∀ pid, ((r'.players.find? fun q => q.id = pid).map Player.score) =
        ((r.players.find? fun q => q.id = pid).map Player.score)) := by
  obtain ⟨hi, hl⟩ := draw_cards_some h
  obtain ⟨f1, f2, f3, f4, f5, f6, f7, f8, f9⟩ := drawLoop_fields hl
  exact ⟨f1, f2, f3, f4, f5, f6, f7, f8, f9, fun pid => drawLoop_find_score hl⟩

theorem finish_play_state (r4 : Room) (pid : String) (hand1 : List Card) :
    ((finish_play r4 pid hand1).1).players.map Player.id = r4.players.map Player.id ∧
      ((finish_play r4 pid hand1).1).current_player_idx = r4.current_player_idx ∧
      ((finish_play r4 pid hand1).1).current_color = r4.current_color ∧
      ((finish_play r4 pid hand1).1).current_value = r4.current_value ∧
      ((finish_play r4 pid hand1).1).direction = r4.direction ∧
      ((finish_play r4 pid hand1).1).accumulated_draw = r4.accumulated_draw := by
  unfold finish_play
  by_cases h0 : hand1.length = 0
  · rw [if_pos h0]
    exact ⟨update_player_map_id (by intro q; rfl), rfl, rfl, rfl, rfl, rfl⟩
  · rw [if_neg h0]
    exact ⟨rfl, rfl, rfl, rfl, rfl, rfl⟩

theorem finish_play_allCards {r4 : Room} {pid : String} {hand1 : List Card} :
    ((finish_play r4 pid hand1).1).allCards = r4.allCards := by
  unfold finish_play
  by_cases h0 : hand1.length = 0
  · rw [if_pos h0]
    show (↑(r4.draw_pile ++ r4.discard_pile ++ handsOf (update_player r4.players pid _)) :
      Multiset Card) = _
    rw [handsOf_update_hand_eq (by intro q; rfl)]
    rfl
  · rw [if_neg h0]

theorem turn_step_state {shuffle : List Card → List Card} {r1 : Room} {played : Card}
    {choose? : Option String} {r4 : Room}
    (h : turn_step shuffle r1 played choose? = some r4) :
    r4.players.map Player.id = r1.players.map Player.id ∧
      r4.players.length = r1.players.length ∧
      r4.started = r1.started ∧
      (∀ pid, ((r4.players.find? fun q => q.id = pid).map Player.score) =
        ((r1.players.find? fun q => q.id = pid).map Player.score)) ∧
      ((played.value = "skip" ∧
          r4.current_player_idx =
            stepIdx r1.players.length r1.current_player_idx r1.direction 2) ∨
        (played.value = "reverse" ∧
          r4.current_player_idx =
            stepIdx r1.players.length r1.current_player_idx (r1.direction * -1) 1) ∨
        (¬ played.value = "skip" ∧ ¬ played.value = "reverse" ∧
          r4.current_player_idx =
            stepIdx r1.players.length r1.current_player_idx r1.direction 1)) ∧
      (played.is_wild = true →
        r4.current_color = (if truthy choose? then choose? else r1.current_color)) := by
  by_cases hw4 : played.value = "wildDrawFour"
  · rw [turn_step_wild4 hw4] at h
    obtain rfl := Option.some.inj h
    exact ⟨rfl, rfl, rfl, fun pid => rfl,
      Or.inr (Or.inr ⟨by simp [hw4], by simp [hw4], rfl⟩), fun _ => rfl⟩
  by_cases hw : played.value = "wild"
  · rw [turn_step_wild hw] at h
    obtain rfl := Option.some.inj h
    exact ⟨rfl, rfl, rfl, fun pid => rfl,
      Or.inr (Or.inr ⟨by simp [hw], by simp [hw], rfl⟩), fun _ => rfl⟩
  have hnw : played.is_wild = false := by simp [Card.is_wild, hw, hw4]
  by_cases hskip : played.value = "skip"
  · rw [turn_step_skip hskip] at h
    obtain rfl := Option.some.inj h
    exact ⟨rfl, rfl, rfl, fun pid => rfl, Or.inl ⟨hskip, rfl⟩,
      fun hcon => absurd hcon (by simp [hnw])⟩
  by_cases hrev : played.value = "reverse"
  · rw [turn_step_reverse hrev] at h
    obtain rfl := Option.some.inj h
    exact ⟨rfl, rfl, rfl, fun pid => rfl, Or.inr (Or.inl ⟨hrev, rfl⟩),
      fun hcon => absurd hcon (by simp [hnw])⟩
  by_cases hd2 : played.value = "drawTwo"
  · by_cases hsp : r1.rules.stackingPlus = true
    · rw [turn_step_drawTwo_stack hd2 hsp] at h
      obtain rfl := Option.some.inj h
      exact ⟨rfl, rfl, rfl, fun pid => rfl, Or.inr (Or.inr ⟨hskip, hrev, rfl⟩),
        fun hcon => absurd hcon (by simp [hnw])⟩
    · have hsp' : r1.rules.stackingPlus = false := by
        cases hb : r1.rules.stackingPlus
        · rfl
        · exact absurd hb hsp
      rw [turn_step_drawTwo_nostack hd2 hsp'] at h
      cases hdc : Room.draw_cards shuffle
          { r1 with current_color := some played.color,
                    current_value := some played.value } (r1.next_index 1) 2 with
      | none => rw [hdc] at h; exact Option.noConfusion h
      | some r3 =>
        rw [hdc] at h
        obtain rfl := Option.some.inj h
        obtain ⟨g1, g2, -, -, g5, g6, -, g8, -, g10⟩ := draw_cards_state hdc
        refine ⟨g1, by rw [g2], g8, fun pid => g10 pid,
          Or.inr (Or.inr ⟨hskip, hrev, ?_⟩), fun hcon => absurd hcon (by simp [hnw])⟩
        show r3.next_index 1 = _
        rw [next_index_def, g2, g5, g6]
  · rw [turn_step_plain hnw hskip hrev hd2] at h
    obtain rfl := Option.some.inj h
    exact ⟨rfl, rfl, rfl, fun pid => rfl, Or.inr (Or.inr ⟨hskip, hrev, rfl⟩),
      fun hcon => absurd hcon (by simp [hnw])⟩

theorem turn_step_allCards {shuffle : List Card → List Card}
    (hperm : ∀ l, (shuffle l).Perm l) {r1 : Room} {played : Card}
    {choose? : Option String} {r4 : Room}
    (h : turn_step shuffle r1 played choose? = some r4) :
    r4.allCards = r1.allCards := by
  by_cases hw4 : played.value = "wildDrawFour"
  · rw [turn_step_wild4 hw4] at h
    obtain rfl := Option.some.inj h
    rfl
  by_cases hw : played.value = "wild"
  · rw [turn_step_wild hw] at h
    obtain rfl := Option.some.inj h
    rfl
  have hnw : played.is_wild = false := by simp [Card.is_wild, hw, hw4]
  by_cases hskip : played.value = "skip"
  · rw [turn_step_skip hskip] at h
    obtain rfl := Option.some.inj h
    rfl
  by_cases hrev : played.value = "reverse"
  · rw [turn_step_reverse hrev] at h
    obtain rfl := Option.some.inj h
    rfl
  by_cases hd2 : played.value = "drawTwo"
  · by_cases hsp : r1.rules.stackingPlus = true
    · rw [turn_step_drawTwo_stack hd2 hsp] at h
      obtain rfl := Option.some.inj h
      rfl
    · have hsp' : r1.rules.stackingPlus = false := by
        cases hb : r1.rules.stackingPlus
        · rfl
        · exact absurd hb hsp
      rw [turn_step_drawTwo_nostack hd2 hsp'] at h
      cases hdc : Room.draw_cards shuffle
          { r1 with current_color := some played.color,
                    current_value := some played.value } (r1.next_index 1) 2 with
      | none => rw [hdc] at h; exact Option.noConfusion h
      | some r3 =>
        rw [hdc] at h
        obtain rfl := Option.some.inj h
        have hac := draw_cards_allCards hperm hdc
        exact hac
  · rw [turn_step_plain hnw hskip hrev hd2] at h
    obtain rfl := Option.some.inj h
    rfl

theorem play_effect_state {shuffle : List Card → List Card} {r : Room} {pid : String}
    {p : Player} {found_idx : Nat} {choose? : Option String} {r' : Room} {w : Option String}
    (h : play_effect shuffle r pid p found_idx choose? = some (r', w)) :
    ∃ played, p.hand[found_idx]? = some played ∧
      r'.players.map Player.id = r.players.map Player.id ∧
      ((played.value = "skip" ∧
          r'.current_player_idx =
            stepIdx r.players.length r.current_player_idx r.direction 2) ∨
        (played.value = "reverse" ∧
          r'.current_player_idx =
            stepIdx r.players.length r.current_player_idx (r.direction * -1) 1) ∨
        (¬ played.value = "skip" ∧ ¬ played.value = "reverse" ∧
          r'.current_player_idx =
            stepIdx r.players.length r.current_player_idx r.direction 1)) ∧
      (played.is_wild = true →
        r'.current_color = (if truthy choose? then choose? else r.current_color)) := by
  unfold play_effect at h
  cases hfi : p.hand[found_idx]? with
  | none => rw [hfi] at h; exact Option.noConfusion h
  | some played =>
    simp only [hfi] at h
    cases hts : turn_step shuffle
        (pop_to_discard r pid (p.hand.eraseIdx found_idx) played) played choose? with
    | none => rw [hts] at h; exact Option.noConfusion h
    | some r4 =>
      rw [hts] at h
      have hpair : (r', w) = finish_play r4 pid (p.hand.eraseIdx found_idx) :=
        (Option.some.inj h).symm
      have hr' : r' = (finish_play r4 pid (p.hand.eraseIdx found_idx)).1 :=
        congrArg Prod.fst hpair
      obtain ⟨b1, b2, b3, b4, b5, b6, b7, b8⟩ :=
        pop_to_discard_fields r pid (p.hand.eraseIdx found_idx) played
      obtain ⟨t1, t2, -, -, t5, t6⟩ := turn_step_state hts
      obtain ⟨f1, f2, f3, -, -, -⟩ :=
        finish_play_state r4 pid (p.hand.eraseIdx found_idx)
      refine ⟨played, rfl, ?_, ?_, ?_⟩
      · rw [hr', f1, t1, b2]
      · rw [hr', f2]
        rw [b1, b3, b4] at t5
        exact t5
      · intro hwild
        rw [hr', f3, t6 hwild, b7]

theorem pop_to_discard_allCards {r : Room} {pid : String} {hand1 : List Card}
    {played : Card} {p : Player}
    (hnodup : (r.players.map Player.id).Nodup)
    (hfp : r.find_player pid = some p)
    (hph : (↑p.hand : Multiset Card) = ↑[played] + ↑hand1) :
    (pop_to_discard r pid hand1 played).allCards = r.allCards := by
  have hupd := handsOf_update_perm
    (fun q => { q with hand := hand1, said_uno := if hand1.length = 1 then false else q.said_uno })
    hnodup hfp
  have hupd2 : (↑(handsOf (pop_to_discard r pid hand1 played).players) : Multiset Card) +
      ↑p.hand = ↑(handsOf r.players) + ↑hand1 := hupd
  have key : (pop_to_discard r pid hand1 played).allCards + (↑p.hand : Multiset Card) =
      r.allCards + ↑p.hand := by
    show (↑(r.draw_pile ++ (r.discard_pile ++ [played]) ++
        handsOf (pop_to_discard r pid hand1 played).players) : Multiset Card) + ↑p.hand =
      (↑(r.draw_pile ++ r.discard_pile ++ handsOf r.players) : Multiset Card) + ↑p.hand
    calc (↑(r.draw_pile ++ (r.discard_pile ++ [played]) ++
          handsOf (pop_to_discard r pid hand1 played).players) : Multiset Card) + ↑p.hand
        = ((↑(handsOf (pop_to_discard r pid hand1 played).players) : Multiset Card) +
            ↑p.hand) + (↑r.draw_pile + (↑r.discard_pile + ↑[played])) := by
          simp only [← Multiset.coe_add]
          abel
      _ = (↑(handsOf r.players) + (↑hand1 : Multiset Card)) +
            (↑r.draw_pile + (↑r.discard_pile + ↑[played])) := by rw [hupd2]
      _ = ((↑r.draw_pile : Multiset Card) + ↑r.discard_pile + ↑(handsOf r.players)) +
            (↑[played] + ↑hand1) := by abel
      _ = ((↑r.draw_pile : Multiset Card) + ↑r.discard_pile + ↑(handsOf r.players)) +
            ↑p.hand := by rw [← hph]
      _ = (↑(r.draw_pile ++ r.discard_pile ++ handsOf r.players) : Multiset Card) +
            ↑p.hand := by simp only [← Multiset.coe_add]
  exact add_right_cancel key

theorem play_effect_allCards {shuffle : List Card → List Card}
    (hperm : ∀ l, (shuffle l).Perm l) {r : Room} {pid : String} {p : Player}
    {found_idx : Nat} {choose? : Option String} {r' : Room} {w : Option String}
    (hnodup : (r.players.map Player.id).Nodup)
    (hfp : r.find_player pid = some p)
    (h : play_effect shuffle r pid p found_idx choose? = some (r', w)) :
    r'.allCards = r.allCards := by
  unfold play_effect at h
  cases hfi : p.hand[found_idx]? with
  | none => rw [hfi] at h; exact Option.noConfusion h
  | some played =>
    simp only [hfi] at h
    cases hts : turn_step shuffle
        (pop_to_discard r pid (p.hand.eraseIdx found_idx) played) played choose? with
    | none => rw [hts] at h; exact Option.noConfusion h
    | some r4 =>
      rw [hts] at h
      have hr' : r' = (finish_play r4 pid (p.hand.eraseIdx found_idx)).1 :=
        congrArg Prod.fst (Option.some.inj h).symm
      have hph : (↑p.hand : Multiset Card) = ↑[played] + ↑(p.hand.eraseIdx found_idx) := by
        have hcp := Multiset.coe_eq_coe.mpr (cons_eraseIdx_perm hfi)
        rw [show (played :: p.hand.eraseIdx found_idx) =
          [played] ++ p.hand.eraseIdx found_idx from rfl] at hcp
        rw [← hcp, ← Multiset.coe_add]
      rw [hr', finish_play_allCards, turn_step_allCards hperm hts,
        pop_to_discard_allCards hnodup hfp hph]

theorem pop_to_discard_find_score {r : Room} {pid : String} {hand1 : List Card}
    {played : Card} {p : Player} (hfp : r.find_player pid = some p) :
    (((pop_to_discard r pid hand1 played).players.find? fun q => q.id = pid).map
      Player.score) = some p.score := by
  have hfind := find?_update_player
    (fun q =>
      { q with
        hand := hand1
        said_uno := if hand1.length = 1 then false else q.said_uno })
    (fun q => rfl) hfp
  show ((update_player r.players pid _).find? fun q => q.id = pid).map Player.score =
    some p.score
  rw [hfind]
  rfl

theorem play_effect_win {shuffle : List Card → List Card} {r : Room} {pid : String}
    {p : Player} {found_idx : Nat} {choose? : Option String} {r' : Room} {w : Option String}
    (hfp : r.find_player pid = some p)
    (h : play_effect shuffle r pid p found_idx choose? = some (r', w)) :
    (p.hand.length = 1 →
        w = some pid ∧ r'.started = false ∧
          scoreOf r' pid = scoreOf r pid + scoreSum r'.players pid) ∧
      (¬ p.hand.length = 1 →
        w = none ∧ r'.started = r.started ∧ scoreOf r' pid = scoreOf r pid) := by
  unfold play_effect at h
  cases hfi : p.hand[found_idx]? with
  | none => rw [hfi] at h; exact Option.noConfusion h
  | some played =>
    simp only [hfi] at h
    cases hts : turn_step shuffle
        (pop_to_discard r pid (p.hand.eraseIdx found_idx) played) played choose? with
    | none => rw [hts] at h; exact Option.noConfusion h
    | some r4 =>
      rw [hts] at h
      have hpair : (r', w) = finish_play r4 pid (p.hand.eraseIdx found_idx) :=
        (Option.some.inj h).symm
      have hidx : found_idx < p.hand.length := lt_of_getElem?_eq_some hfi
      have hlen1 : (p.hand.eraseIdx found_idx).length = p.hand.length - 1 :=
        List.length_eraseIdx_of_lt hidx
      obtain ⟨-, -, hts_st, hts_sc, -, -⟩ := turn_step_state hts
      have hpopsc :
          (((pop_to_discard r pid (p.hand.eraseIdx found_idx) played).players.find?
              fun q => q.id = pid).map Player.score) = some p.score :=
        pop_to_discard_find_score hfp
      have hr4sc : ((r4.players.find? fun q => q.id = pid).map Player.score) =
          some p.score := by rw [hts_sc pid]; exact hpopsc
      obtain ⟨p4, hp4, hp4sc⟩ :
          ∃ p4, (r4.players.find? fun q => q.id = pid) = some p4 ∧
            p4.score = p.score := by
        cases hf4 : (r4.players.find? fun q => q.id = pid) with
        | none => rw [hf4] at hr4sc; exact Option.noConfusion hr4sc
        | some p4 =>
          rw [hf4] at hr4sc
          exact ⟨p4, rfl, Option.some.inj hr4sc⟩
      have hscr : scoreOf r pid = p.score := by
        unfold scoreOf
        rw [hfp]
        rfl
      have hpopst : (pop_to_discard r pid (p.hand.eraseIdx found_idx) played).started =
          r.started := rfl
      constructor
      · intro hp1
        have hzero : (p.hand.eraseIdx found_idx).length = 0 := by omega
        have hfin : finish_play r4 pid (p.hand.eraseIdx found_idx) =
            ({ r4 with
               players := update_player r4.players pid fun q =>
                 { q with score := q.score + scoreSum r4.players pid }
               started := false },
             some pid) := by
          unfold finish_play
          rw [if_pos hzero]
        rw [hfin] at hpair
        simp only [Prod.mk.injEq] at hpair
        obtain ⟨hr', hw⟩ := hpair
        refine ⟨by rw [hw], by rw [hr'], ?_⟩
        have hfind' := find?_update_player
          (fun q => { q with score := q.score + scoreSum r4.players pid })
          (fun q => rfl) hp4
        have hscore' : scoreOf r' pid = p4.score + scoreSum r4.players pid := by
          rw [hr']
          unfold scoreOf Room.find_player
          show ((((update_player r4.players pid fun q =>
            { q with score := q.score + scoreSum r4.players pid }).find?
              fun q => q.id = pid)).map Player.score).getD 0 = _
          rw [hfind']
          rfl
        have hsum : scoreSum r'.players pid = scoreSum r4.players pid := by
          rw [hr']
          exact scoreSum_update_hand_eq (fun q => ⟨rfl, rfl⟩)
        rw [hscore', hsum, hscr, hp4sc]
      · intro hp1
        have hnz : ¬ (p.hand.eraseIdx found_idx).length = 0 := by omega
        have hfin : finish_play r4 pid (p.hand.eraseIdx found_idx) = (r4, none) := by
          unfold finish_play
          rw [if_neg hnz]
        rw [hfin] at hpair
        simp only [Prod.mk.injEq] at hpair
        obtain ⟨hr', hw⟩ := hpair
        refine ⟨by rw [hw], by rw [hr']; rw [hts_st, hpopst], ?_⟩
        have h4 : scoreOf r' pid = p.score := by
          rw [hr']
          unfold scoreOf Room.find_player
          rw [hr4sc]
          rfl
        rw [h4, hscr]

theorem handle_playCard_illegal_eq {shuffle : List Card → List Card} {r : Room}
    {pid : String} {card : Card} {choose? : Option String} {p cp : Player}
    {found_idx : Nat}
    (hst : r.started = true) (hpid : ¬ pid = "") (hhas : r.has_player pid = true)
    (hcp : r.current_player = some (some cp)) (hcpid : cp.id = pid)
    (hfp : r.find_player pid = some p)
    (hfi : (p.hand.findIdx? fun c => c.color = card.color ∧ c.value = card.value) =
      some found_idx)
    (hcan : r.can_play card = false) :
    handle_playCard shuffle r (some pid) card choose? = some (r, .err .illegal_move) := by
  unfold handle_playCard
  simp [hst, hcp, hfp, hfi, hcan, hcpid, hpid, hhas]
  simp only [Bool.decide_and] at hfi
  rw [hfi]

/-! ### Claim theorems -/

/-- **C2** — Legality soundness: `can_play` returns true iff there is no
pending draw and the card is wild or matches the current color or value, or
there is a pending draw, stacking is enabled and the card's value matches the
pending penalty's value (`drawTwo` on `drawTwo`, `wildDrawFour` on
`wildDrawFour`); and `playCard` rejects every card for which `can_play` is
false — the room is left unchanged and no `played` broadcast happens, and
when all earlier validations pass the rejection is exactly the
`illegal_move` error to the requester. -/
theorem claim_C2_legality_soundness (r : Room) (card : Card) :
    (r.can_play card = true ↔
        ((0 < r.accumulated_draw ∧ r.rules.stackingPlus = true ∧
            ((card.value = "drawTwo" ∧ r.current_value = some "drawTwo") ∨
              (card.value = "wildDrawFour" ∧ r.current_value = some "wildDrawFour"))) ∨
          (r.accumulated_draw = 0 ∧
            (card.is_wild = true ∨ r.current_color = some card.color ∨
              r.current_value = some card.value)))) ∧
    (∀ shuffle pid? choose? r' res, r.can_play card = false →
        handle_playCard shuffle r pid? card choose? = some (r', res) →
          r' = r ∧ ∀ w, ¬ res = PlayResult.played w) ∧
    (∀ shuffle pid choose? (p cp : Player) found_idx, r.can_play card = false →
        r.started = true → ¬ pid = "" → r.has_player pid = true →
        r.current_player = some (some cp) → cp.id = pid →
        r.find_player pid = some p →
        (p.hand.findIdx? fun c => c.color = card.color ∧ c.value = card.value) =
            some found_idx →
          handle_playCard shuffle r (some pid) card choose? =
            some (r, .err .illegal_move)) := by
  refine ⟨?_, ?_, ?_⟩
  · unfold Room.can_play
    by_cases hacc : 0 < r.accumulated_draw
    · rw [if_pos hacc]
      have haccne : ¬ r.accumulated_draw = 0 := by omega
      by_cases hsp : r.rules.stackingPlus = true
      · rw [if_neg (by simp [hsp])]
        simp [hacc, hsp, haccne]
      · have hsp' : r.rules.stackingPlus = false := by
          cases hb : r.rules.stackingPlus
          · rfl
          · exact absurd hb hsp
        rw [if_pos (by simp [hsp'])]
        simp [hsp', haccne]
    · rw [if_neg hacc]
      have hacc0 : r.accumulated_draw = 0 := by omega
      simp [hacc0, hacc]
  · intro shuffle pid? choose? r' res hfalse h
    cases res with
    | err e => exact ⟨handle_playCard_err h, fun w => by simp⟩
    | played w0 =>
      obtain ⟨pid, p, fi, cp, -, -, -, -, -, -, hcan, -⟩ := handle_playCard_played h
      rw [hcan] at hfalse
      exact absurd hfalse (by simp)
  · intro shuffle pid choose? p cp found_idx hfalse hst hpid hhas hcp hcpid hfp hfi
    exact handle_playCard_illegal_eq hst hpid hhas hcp hcpid hfp hfi hfalse

/-- Witness for C2 at a concrete input: in `rIll` (top card blue/two) the
current player "A" holds only a red five, which is unplayable, and the
`playCard` request is rejected with `illegal_move` leaving the room
unchanged. -/
theorem claim_C2_witness :
    handle_playCard (fun l => l) rIll (some "A") ⟨"red", "five"⟩ none =
      some (rIll, .err .illegal_move) :=
  (claim_C2_legality_soundness rIll ⟨"red", "five"⟩).2.2 (fun l => l) "A" none
    (mkP "A" [⟨"red", "five"⟩]) (mkP "A" [⟨"red", "five"⟩]) 0 (by rfl) (by rfl)
    (by decide) (by rfl) (by rfl) (by rfl) (by rfl) (by rfl)

/-- **C7** — Rejected-action atomicity: every `playCard` or `drawCard`
request that is rejected (any of the five validation errors, which are
replied to the requester only with nothing broadcast — the `err` result
constructor) leaves the room exactly unchanged. -/
theorem claim_C7_rejected_atomicity :
    (∀ (shuffle : List Card → List Card) (r : Room) pid? card choose? r' e,
        handle_playCard shuffle r pid? card choose? = some (r', PlayResult.err e) →
          r' = r) ∧
    (∀ (shuffle : List Card → List Card) (r : Room) pid? r' e,
        handle_drawCard shuffle r pid? = some (r', DrawResult.err e) → r' = r) :=
  ⟨fun _ _ _ _ _ _ _ h => handle_playCard_err h,
   fun _ _ _ _ _ h => handle_drawCard_err h⟩

/-- Witness for C7 at concrete inputs: a `playCard` by the unknown player
"X" (rejected `invalid_player`) and a `drawCard` in the unstarted room
`rUno` (rejected `game_not_started`) both leave the room unchanged. -/
theorem claim_C7_witness :
    (((handle_playCard (fun l => l) rIll (some "X") ⟨"red", "five"⟩ none).getD
        (rIll, .played none)).1) = rIll ∧
    (((handle_drawCard (fun l => l) rUno (some "A")).getD (rUno, .drew)).1) = rUno :=
  ⟨claim_C7_rejected_atomicity.1 (fun l => l) rIll (some "X") ⟨"red", "five"⟩ none _
      .invalid_player (by rfl),
    claim_C7_rejected_atomicity.2 (fun l => l) rUno (some "A") _ .game_not_started (by rfl)⟩

/-- **C8** — Draw reshuffle totality and shape: whenever the draw pile is
non-empty or the discard pile holds more than one card, `draw()` never pops
from an empty sequence and returns a card; and when invoked with an empty
draw pile it moves every discard-pile card except the top into the new draw
pile (the returned card together with the remaining new draw pile is, as a
multiset, exactly the old discard pile minus its top), leaving exactly the
former top card as the sole discard. -/
theorem claim_C8_draw_reshuffle (shuffle : List Card → List Card)
    (hperm : ∀ l, (shuffle l).Perm l) (r : Room)
    (h : ¬ r.draw_pile = [] ∨ 1 < r.discard_pile.length) :
    ∃ c r', Room.draw shuffle r = some (c, r') ∧
      (r.draw_pile = [] →
        r'.discard_pile = r.discard_pile.getLast?.toList ∧
          c ::ₘ (↑r'.draw_pile : Multiset Card) = ↑r.discard_pile.dropLast) := by
  by_cases hdp : r.draw_pile = []
  · have hdc : 1 < r.discard_pile.length := by
      cases h with
      | inl h0 => exact absurd hdp h0
      | inr h0 => exact h0
    have hne : r.discard_pile ≠ [] := by
      intro h0
      rw [h0] at hdc
      simp at hdc
    have htop := List.getLast?_eq_getLast r.discard_pile hne
    have hslen : (shuffle r.discard_pile.dropLast).length =
        r.discard_pile.dropLast.length := (hperm _).length_eq
    have hsne : shuffle r.discard_pile.dropLast ≠ [] := by
      intro h0
      rw [h0] at hslen
      rw [List.length_dropLast] at hslen
      simp at hslen
      omega
    have hs := List.getLast?_eq_getLast _ hsne
    have hD : Room.draw shuffle r =
        some ((shuffle r.discard_pile.dropLast).getLast hsne,
          { r with draw_pile := (shuffle r.discard_pile.dropLast).dropLast,
                   discard_pile := [r.discard_pile.getLast hne] }) := by
      unfold Room.draw
      rw [hdp, drawP_eq_reshuffle hdc htop, hs]
    refine ⟨_, _, hD, fun _ => ⟨?_, ?_⟩⟩
    · show [r.discard_pile.getLast hne] = r.discard_pile.getLast?.toList
      rw [htop]
      rfl
    · show (shuffle r.discard_pile.dropLast).getLast hsne ::ₘ
        (↑((shuffle r.discard_pile.dropLast).dropLast) : Multiset Card) =
        ↑r.discard_pile.dropLast
      rw [Multiset.cons_coe, Multiset.coe_eq_coe]
      refine List.Perm.trans ?_ (hperm r.discard_pile.dropLast)
      refine List.Perm.trans ((List.perm_append_singleton _ _).symm) ?_
      rw [List.dropLast_append_getLast hsne]
  · have hg := List.getLast?_eq_getLast r.draw_pile hdp
    have hD : Room.draw shuffle r =
        some (r.draw_pile.getLast hdp,
          { r with draw_pile := r.draw_pile.dropLast, discard_pile := r.discard_pile }) := by
      unfold Room.draw
      rw [drawP_eq_nonempty hdp, hg]
    exact ⟨_, _, hD, fun h0 => absurd h0 hdp⟩

/-- Witness for C8 at a concrete input: in `rLow` the draw pile is empty and
the discard pile holds three cards, so `draw()` succeeds by reshuffling. -/
theorem claim_C8_witness :
    ∃ c r', Room.draw (fun l => l) rLow = some (c, r') ∧
      (rLow.draw_pile = [] →
        r'.discard_pile = rLow.discard_pile.getLast?.toList ∧
          c ::ₘ (↑r'.draw_pile : Multiset Card) = ↑rLow.discard_pile.dropLast) :=
  claim_C8_draw_reshuffle (fun l => l) (fun l => List.Perm.refl l) rLow
    (Or.inr (by decide))

/-- **C9** — Implicit: the chosen wild color is not validated.  For every
accepted `playCard` of a wild card, `currentColor` is set to exactly the
client-supplied `chooseColor` whenever that value is truthy — with no check
that it is one of red/yellow/green/blue, so it can be an arbitrary string —
and when `chooseColor` is absent or falsy the prior `currentColor` is
kept. -/
theorem claim_C9_wild_color_unvalidated (shuffle : List Card → List Card) (r : Room)
    (pid? : Option String) (card : Card) (choose? : Option String) (r' : Room)
    (w : Option String) (hwild : card.is_wild = true)
    (h : handle_playCard shuffle r pid? card choose? = some (r', .played w)) :
    (truthy choose? = true → r'.current_color = choose?) ∧
      (truthy choose? = false → r'.current_color = r.current_color) := by
  obtain ⟨pid, p, found_idx, cp, -, -, -, -, -, hfind, -, hpe⟩ := handle_playCard_played h
  obtain ⟨played, hfi, -, -, hcolor⟩ := play_effect_state hpe
  have hcard : p.hand[found_idx]? = some card := findIdx?_card_spec hfind
  have hpc : played = card := by
    rw [hfi] at hcard
    exact Option.some.inj hcard
  subst hpc
  have hc := hcolor hwild
  constructor
  · intro ht
    rw [hc, if_pos ht]
  · intro hf
    rw [hc, if_neg (by simp [hf])]

/-- Witness for C9 at a concrete input: "A" plays a wild in `rWild` choosing
the non-card color "purple", and `currentColor` becomes exactly "purple". -/
theorem claim_C9_witness : rWildRes.current_color = some "purple" :=
  (claim_C9_wild_color_unvalidated (fun l => l) rWild (some "A") ⟨"wild", "wild"⟩
      (some "purple") rWildRes none (by rfl) (by rfl)).1 (by rfl)

/-- **C10** — Implicit: `sayUno` and `calloutUno` bypass the round and
membership checks.  Both are processed even when `started` is false;
`calloutUno` never validates the supplied caller id — any caller (member or
not) causes every player holding exactly one card with `saidUno` false to
draw 2 penalty cards and be listed as an offender; and `sayUno` for a player
id not in the room is silently ignored with no broadcast and no error. -/
theorem claim_C10_uno_bypass :
    (∀ (r : Room) (pid : String), r.started = false → r.has_player pid = true →
        (handle_sayUno r (some pid)).2 = .saidUno ∧
          ∀ (i : Nat) (p : Player), r.players[i]? = some p → p.id = pid →
            p.hand.length = 1 →
              (handle_sayUno r (some pid)).1.players[i]? =
                some { p with said_uno := true }) ∧
    (∀ (r : Room) (pid : String), r.has_player pid = false →
        handle_sayUno r (some pid) = (r, .silent)) ∧
    (∀ (shuffle : List Card → List Card) (r : Room) (caller : Option String) r' res,
        r.started = false →
        handle_calloutUno shuffle r caller = some (r', res) →
          ∀ (i : Nat) (p : Player), r.players[i]? = some p → p.hand.length = 1 →
            p.said_uno = false →
              ∃ p' offs, r'.players[i]? = some p' ∧
                p'.hand.length = p.hand.length + 2 ∧
                res = .broadcastPenalty offs caller ∧ p.id ∈ offs) := by
  refine ⟨?_, ?_, ?_⟩
  · intro r pid hst hhas
    have hred : handle_sayUno r (some pid) =
        ({ r with players := update_player r.players pid fun p =>
           if p.hand.length = 1 then { p with said_uno := true } else p }, .saidUno) := by
      simp only [handle_sayUno, if_pos hhas]
    constructor
    · rw [hred]
    · intro i p hp hpid hlen
      rw [hred]
      show (update_player r.players pid _)[i]? = _
      unfold update_player
      rw [List.getElem?_map, hp]
      simp only [Option.map_some']
      rw [if_pos hpid, if_pos hlen]
  · intro r pid hhas
    simp only [handle_sayUno]
    rw [if_neg (by simp [hhas])]
  · intro shuffle r caller r' res hst h i p hp hlen hsu
    obtain ⟨ps1, piles1, offs, hcl, hr', hres⟩ := handle_calloutUno_spec h
    obtain ⟨-, hpt⟩ := calloutLoop_pointwise hcl
    obtain ⟨hoff, -⟩ := hpt i p hp
    obtain ⟨c1, c2, hp', hmem⟩ := hoff ⟨hlen, hsu⟩
    have hne : ¬ offs = [] := by
      intro h0
      rw [h0] at hmem
      exact absurd hmem (List.not_mem_nil _)
    have hres' : res = .broadcastPenalty offs caller := by
      cases hres with
      | inl h0 => exact h0.2
      | inr h0 => exact absurd h0.1 hne
    refine ⟨{ p with hand := p.hand ++ [c1, c2] }, offs, ?_, by simp, hres', hmem⟩
    rw [hr']
    exact hp'

/-- Witness for C10 at concrete inputs on the unstarted room `rUno`:
`sayUno` by "A" (one card) sets the flag and broadcasts; `sayUno` by the
unknown "NOBODY" is silently ignored; `calloutUno` by the non-member caller
"ZZZ" penalizes "A" with two cards and reports them as offender. -/
theorem claim_C10_witness :
    ((handle_sayUno rUno (some "A")).2 = .saidUno ∧
        (handle_sayUno rUno (some "A")).1.players[0]? =
          some { mkP "A" [⟨"red", "one"⟩] with said_uno := true }) ∧
      handle_sayUno rUno (some "NOBODY") = (rUno, .silent) ∧
      (∃ p' offs, (rUnoRes.1).players[0]? = some p' ∧
        p'.hand.length = (mkP "A" [⟨"red", "one"⟩]).hand.length + 2 ∧
        rUnoRes.2 = .broadcastPenalty offs (some "ZZZ") ∧
        (mkP "A" [⟨"red", "one"⟩]).id ∈ offs) := by
  refine ⟨?_, ?_, ?_⟩
  · have h1 := claim_C10_uno_bypass.1 rUno "A" (by rfl) (by rfl)
    exact ⟨h1.1, h1.2 0 (mkP "A" [⟨"red", "one"⟩]) (by rfl) (by rfl) (by rfl)⟩
  · exact claim_C10_uno_bypass.2.1 rUno "NOBODY" (by rfl)
  · exact claim_C10_uno_bypass.2.2 (fun l => l) rUno (some "ZZZ") rUnoRes.1 rUnoRes.2
      (by rfl) (by rfl) 0 (mkP "A" [⟨"red", "one"⟩]) (by rfl) (by rfl) (by rfl)

/-- **C4** — evaluation of the code at the failing inputs.  In both
immediate drawTwo penalties — the flip effect of a starting drawTwo in
`rFlip`, and the `playCard` of a drawTwo with stacking disabled in `rD2` —
the next seat ("B") draws exactly 2 cards but the turn cursor ends ON that
seat: the penalized player becomes the current player, contradicting the
claim (and the spec), which require the cursor to end past the penalized
seat (on "C").  The source computes `next_index(step=1)` twice from the
unchanged cursor instead of advancing past the penalized seat. -/
theorem claim_C4_drawTwo_cursor_lands_on_penalized :
    Room.apply_flip (fun l => l) rFlip ⟨"red", "drawTwo"⟩ = some rFlipRes ∧
      rFlipRes.currentId = some "B" ∧
      (rFlipRes.players.map fun p => p.hand.length) = [0, 2, 0] ∧
      handle_playCard (fun l => l) rD2 (some "A") ⟨"red", "drawTwo"⟩ none =
        some (rD2Res, .played none) ∧
      rD2Res.currentId = some "B" ∧
      (rD2Res.players.map fun p => p.hand.length) = [1, 3, 1] := by
  refine ⟨by decide, by decide, by decide, by decide, by decide, by decide⟩

theorem stepIdx_lt {n i : Nat} {d s : Int} (hn : 0 < n) : stepIdx n i d s < n := by
  unfold stepIdx
  rw [if_neg (by omega)]
  exact toNat_emod_lt hn

theorem stepIdx_one_ne {n i : Nat} {d : Int} (h2 : 2 ≤ n) (hi : i < n)
    (hd : d = 1 ∨ d = -1) : stepIdx n i d 1 ≠ i := by
  unfold stepIdx
  rw [if_neg (by omega), mul_one]
  exact toNat_emod_add_ne h2 hi hd

theorem stepIdx_two_ne {n i : Nat} {d : Int} (h3 : 3 ≤ n) (hi : i < n)
    (hd : d = 1 ∨ d = -1) : stepIdx n i d 2 ≠ i := by
  unfold stepIdx
  rw [if_neg (by omega)]
  exact toNat_emod_add_two_ne h3 hi hd

theorem currentId_ne_of_idx_ne {r r' : Room}
    (hmap : r'.players.map Player.id = r.players.map Player.id)
    (hnodup : (r.players.map Player.id).Nodup)
    (hi : r.current_player_idx < r.players.length)
    (hi' : r'.current_player_idx < r'.players.length)
    (hne : r'.current_player_idx ≠ r.current_player_idx) :
    ¬ r'.currentId = r.currentId := by
  intro heq
  have e1 : (r.players.map Player.id)[r.current_player_idx]? = r.currentId := by
    rw [List.getElem?_map]
    rfl
  have e2 : (r.players.map Player.id)[r'.current_player_idx]? = r'.currentId := by
    rw [← hmap, List.getElem?_map]
    rfl
  rw [← e1, ← e2] at heq
  have hlen : r'.players.length = r.players.length := by
    have h0 := congrArg List.length hmap
    simpa using h0
  have hi2 : r'.current_player_idx < (r.players.map Player.id).length := by
    rw [List.length_map]
    omega
  have hi1 : r.current_player_idx < (r.players.map Player.id).length := by
    rw [List.length_map]
    exact hi
  rw [List.getElem?_eq_getElem hi2, List.getElem?_eq_getElem hi1] at heq
  exact hne ((hnodup.getElem_inj_iff).mp (Option.some.inj heq))

/-- **C3 (counterexample)** — in the two-seat room `rSkip`, both seats
connected, the accepted play of a red skip leaves the turn cursor on the same
player: the current player's id is `"A"` both before and after, although the
room has two connected seats.  (The code advances by 2 and `2 % 2 = 0`.) -/
theorem claim_C3_counterexample :
    handle_playCard (fun l => l) rSkip (some "A") ⟨"red", "skip"⟩ none =
        some (rSkipRes, .played none) ∧
      rSkip.players.length = 2 ∧
      (rSkip.players.all fun q => q.connected) = true ∧
      (rSkipRes.players.all fun q => q.connected) = true ∧
      rSkip.currentId = some "A" ∧
      rSkipRes.currentId = some "A" := by
  refine ⟨by decide, by decide, by decide, by decide, by decide, by decide⟩

/-- **C3 (amended)** — turn monotonicity holds except for a skip played in a
room of exactly two seats: after an accepted `playCard` in a room with at
least two seats, distinct player ids, the cursor in range and direction ±1,
the new current player's id differs from the prior one unless the played card
is a skip and the room has exactly two seats; after an accepted `drawCard`
under the same conditions the new current player's id always differs. -/
theorem claim_C3_turn_change :
    (∀ (shuffle : List Card → List Card) (r : Room) (pid? : Option String)
        (card : Card) (choose? : Option String) (r' : Room) (w : Option String),
        (r.players.map Player.id).Nodup →
        r.current_player_idx < r.players.length →
        2 ≤ r.players.length →
        (r.direction = 1 ∨ r.direction = -1) →
        handle_playCard shuffle r pid? card choose? = some (r', .played w) →
        (¬ r'.currentId = r.currentId ∨
          (card.value = "skip" ∧ r.players.length = 2))) ∧
    (∀ (shuffle : List Card → List Card) (r : Room) (pid? : Option String) (r' : Room),
        (r.players.map Player.id).Nodup →
        r.current_player_idx < r.players.length →
        2 ≤ r.players.length →
        (r.direction = 1 ∨ r.direction = -1) →
        handle_drawCard shuffle r pid? = some (r', .drew) →
        ¬ r'.currentId = r.currentId) := by
  constructor
  · intro shuffle r pid? card choose? r' w hnodup hidx hn2 hdir h
    obtain ⟨pid, p, found_idx, cp, -, -, -, -, hfp, hfind, -, hpe⟩ :=
      handle_playCard_played h
    obtain ⟨played, hfi, hmapid, hcase, -⟩ := play_effect_state hpe
    have hcard := findIdx?_card_spec hfind
    rw [hfi] at hcard
    have hpc : played = card := Option.some.inj hcard
    subst hpc
    have hlen' : r'.players.length = r.players.length := by
      have h0 := congrArg List.length hmapid
      simpa using h0
    rcases hcase with ⟨hskip, hstep⟩ | ⟨hrev, hstep⟩ | ⟨-, -, hstep⟩
    · by_cases h2 : r.players.length = 2
      · exact Or.inr ⟨hskip, h2⟩
      · refine Or.inl (currentId_ne_of_idx_ne hmapid hnodup hidx ?_ ?_)
        · rw [hlen', hstep]
          exact stepIdx_lt (by omega)
        · rw [hstep]
          exact stepIdx_two_ne (by omega) hidx hdir
    · have hd' : r.direction * -1 = 1 ∨ r.direction * -1 = -1 := by
        rcases hdir with h1 | h1 <;> simp [h1]
      refine Or.inl (currentId_ne_of_idx_ne hmapid hnodup hidx ?_ ?_)
      · rw [hlen', hstep]
        exact stepIdx_lt (by omega)
      · rw [hstep]
        exact stepIdx_one_ne hn2 hidx hd'
    · refine Or.inl (currentId_ne_of_idx_ne hmapid hnodup hidx ?_ ?_)
      · rw [hlen', hstep]
        exact stepIdx_lt (by omega)
      · rw [hstep]
        exact stepIdx_one_ne hn2 hidx hdir
  · intro shuffle r pid? r' hnodup hidx hn2 hdir h
    obtain ⟨pid, cp, -, -, -, -, hcase⟩ := handle_drawCard_drew h
    rcases hcase with ⟨-, r1, hdc, hr'⟩ | ⟨-, r1, hdc, hr'⟩
    · obtain ⟨g1, g2, -, -, g5, g6, -, -, -, -⟩ := draw_cards_state hdc
      have hmap' : r'.players.map Player.id = r.players.map Player.id := by
        rw [hr']
        exact g1
      have hidxeq : r'.current_player_idx =
          stepIdx r.players.length r.current_player_idx r.direction 1 := by
        rw [hr']
        show r1.next_index 1 = _
        rw [next_index_def, g2, g5, g6]
      have hlen' : r'.players.length = r.players.length := by
        have h0 := congrArg List.length hmap'
        simpa using h0
      refine currentId_ne_of_idx_ne hmap' hnodup hidx ?_ ?_
      · rw [hlen', hidxeq]
        exact stepIdx_lt (by omega)
      · rw [hidxeq]
        exact stepIdx_one_ne hn2 hidx hdir
    · obtain ⟨g1, g2, -, -, g5, g6, -, -, -, -⟩ := draw_cards_state hdc
      have hmap' : r'.players.map Player.id = r.players.map Player.id := by
        rw [hr']
        exact g1
      have hidxeq : r'.current_player_idx =
          stepIdx r.players.length r.current_player_idx r.direction 1 := by
        rw [hr']
        show r1.next_index 1 = _
        rw [next_index_def, g2, g5, g6]
      have hlen' : r'.players.length = r.players.length := by
        have h0 := congrArg List.length hmap'
        simpa using h0
      refine currentId_ne_of_idx_ne hmap' hnodup hidx ?_ ?_
      · rw [hlen', hidxeq]
        exact stepIdx_lt (by omega)
      · rw [hidxeq]
        exact stepIdx_one_ne hn2 hidx hdir

/-- **C3 (witness)** — the amended theorem applied to the accepted `drawCard`
resolving the stacked penalty in `rStack`: the current player's id changes. -/
theorem claim_C3_witness : ¬ rStackRes.currentId = rStack.currentId :=
  claim_C3_turn_change.2 (fun l => l) rStack (some "B") rStackRes
    (by decide) (by decide) (by decide) (by decide) (by decide)

/-- **C5** — stacking resolution: whenever `accumulatedDraw > 0` and a
`drawCard` is accepted, the requester is the current player, that player's
hand grows by exactly `accumulatedDraw` cards, the accumulator resets to 0,
and the cursor advances by exactly one step in the current direction. -/
theorem claim_C5_stacking_resolution (shuffle : List Card → List Card) (r : Room)
    (pid? : Option String) (r' : Room)
    (hacc : 0 < r.accumulated_draw)
    (h : handle_drawCard shuffle r pid? = some (r', .drew)) :
    ∃ cp p p', pid? = some cp.id ∧ r.current_player = some (some cp) ∧
      r.players[r.current_player_idx]? = some p ∧
      r'.players[r.current_player_idx]? = some p' ∧ p'.id = p.id ∧
      p'.hand.length = p.hand.length + r.accumulated_draw ∧
      r'.accumulated_draw = 0 ∧
      r'.current_player_idx =
        stepIdx r.players.length r.current_player_idx r.direction 1 := by
  obtain ⟨pid, cp, hpid, -, hcp, hcpid, hcase⟩ := handle_drawCard_drew h
  rcases hcase with ⟨-, r1, hdc, hr'⟩ | ⟨hacc0, -⟩
  · obtain ⟨hi, hl⟩ := draw_cards_some hdc
    obtain ⟨-, g2, -, -, g5, g6, -, -, -, -⟩ := draw_cards_state hdc
    have hp : r.players[r.current_player_idx]? =
        some (r.players.get ⟨r.current_player_idx, hi⟩) := List.getElem?_eq_getElem hi
    obtain ⟨p', hp', hlen, hid, -⟩ := drawLoop_hand_at hp hl
    refine ⟨cp, _, p', ?_, hcp, hp, ?_, hid, hlen, ?_, ?_⟩
    · rw [hcpid]
      exact hpid
    · rw [hr']
      exact hp'
    · rw [hr']
    · rw [hr']
      show r1.next_index 1 = _
      rw [next_index_def, g2, g5, g6]
  · omega

/-- **C5 (witness)** — resolving the stacked penalty of 4 in `rStack`: seat
"B" draws 4 cards, the accumulator resets and the cursor moves one step. -/
theorem claim_C5_witness :
    ∃ cp p p', (some "B" : Option String) = some cp.id ∧
      rStack.current_player = some (some cp) ∧
      rStack.players[rStack.current_player_idx]? = some p ∧
      rStackRes.players[rStack.current_player_idx]? = some p' ∧ p'.id = p.id ∧
      p'.hand.length = p.hand.length + rStack.accumulated_draw ∧
      rStackRes.accumulated_draw = 0 ∧
      rStackRes.current_player_idx =
        stepIdx rStack.players.length rStack.current_player_idx rStack.direction 1 :=
  claim_C5_stacking_resolution (fun l => l) rStack (some "B") rStackRes
    (by decide) (by decide)

/-- **C6** — win scoring: `card_point` maps zero..nine to 0..9,
skip/reverse/drawTwo to 20 and the wilds to 50; and for every accepted
`playCard`, if the acting player held exactly one card (so the play empties
the hand) the broadcast winner id is the actor's id, `started` becomes
`false`, and the actor's score grows by exactly the sum of `card_point` over
all other players' remaining cards; otherwise the winner id is `null`,
`started` is unchanged and the score is unchanged. -/
theorem claim_C6_win_scoring :
    ((VALUES.take 10).map card_point = [0, 1, 2, 3, 4, 5, 6, 7, 8, 9] ∧
      card_point "skip" = 20 ∧ card_point "reverse" = 20 ∧
      card_point "drawTwo" = 20 ∧
      card_point "wild" = 50 ∧ card_point "wildDrawFour" = 50) ∧
    ∀ (shuffle : List Card → List Card) (r : Room) (pid : String) (card : Card)
      (choose? : Option String) (r' : Room) (w : Option String),
      handle_playCard shuffle r (some pid) card choose? = some (r', .played w) →
      ∃ p, r.find_player pid = some p ∧
        (p.hand.length = 1 →
          w = some pid ∧ r'.started = false ∧
            scoreOf r' pid = scoreOf r pid + scoreSum r'.players pid) ∧
        (¬ p.hand.length = 1 →
          w = none ∧ r'.started = r.started ∧ scoreOf r' pid = scoreOf r pid) := by
  refine ⟨⟨by decide, by decide, by decide, by decide, by decide, by decide⟩, ?_⟩
  intro shuffle r pid card choose? r' w h
  obtain ⟨pid1, p, found_idx, cp, hpid, -, -, -, hfp, -, -, hpe⟩ :=
    handle_playCard_played h
  obtain rfl : pid1 = pid := (Option.some.inj hpid).symm
  have hwin := play_effect_win hfp hpe
  exact ⟨p, hfp, hwin.1, hwin.2⟩

/-- **C6 (witness)** — the winning play in `rWin`: "A" goes out and collects
9 + 50 = 59 points from the opponent's red nine and wildDrawFour. -/
theorem claim_C6_witness :
    (∃ p, rWin.find_player "A" = some p ∧
      (p.hand.length = 1 →
        (some "A" : Option String) = some "A" ∧ (rWinRes.1).started = false ∧
          scoreOf rWinRes.1 "A" = scoreOf rWin "A" + scoreSum (rWinRes.1).players "A") ∧
      (¬ p.hand.length = 1 →
        (some "A" : Option String) = none ∧ (rWinRes.1).started = rWin.started ∧
          scoreOf rWinRes.1 "A" = scoreOf rWin "A")) ∧
    scoreOf rWin "A" = 0 ∧ scoreOf rWinRes.1 "A" = 59 :=
  ⟨claim_C6_win_scoring.2 (fun l => l) rWin "A" ⟨"red", "five"⟩ none rWinRes.1
    (some "A") (by decide), by decide, by decide⟩

theorem handle_start_err {shuffle : List Card → List Card} {fuel : Nat} {r r1 : Room}
    {res : StartResult} (h : handle_start shuffle fuel r = some (r1, res))
    (hres : ¬ res = .started) : r1 = r := by
  unfold handle_start at h
  by_cases hlen : r.players.length < 2
  · rw [if_pos hlen] at h
    simp only [Option.some.injEq, Prod.mk.injEq] at h
    exact h.1.symm
  · rw [if_neg hlen] at h
    cases hdeal : Room.deal shuffle fuel (Room.build_deck shuffle r) with
    | none => rw [hdeal] at h; exact Option.noConfusion h
    | some r2 =>
      rw [hdeal] at h
      simp only [Option.some.injEq, Prod.mk.injEq] at h
      exact absurd h.2.symm hres

/-- **C1** — card conservation: a completed `start` that answers `started`
leaves the room holding exactly the 108-card deck, and every completed
handler (`playCard`, `drawCard`, `sayUno`, `calloutUno`, and `start` again)
preserves the invariant that the multiset union of the draw pile, the discard
pile and every hand is the 108-card deck. -/
theorem claim_C1_card_conservation (shuffle : List Card → List Card) (fuel : Nat)
    (r : Room) (m : Msg) (r' : Room) (out : Response)
    (hperm : ∀ l, (shuffle l).Perm l)
    (hnodup : (r.players.map Player.id).Nodup)
    (h : handle_msg shuffle fuel r m = some (r', out)) :
    (out = .startRes .started → r'.allCards = deck108) ∧
    (r.allCards = deck108 → r'.allCards = deck108) := by
  cases m with
  | start =>
    simp only [handle_msg] at h
    cases hs : handle_start shuffle fuel r with
    | none => rw [hs] at h; exact Option.noConfusion h
    | some x =>
      obtain ⟨r1, res⟩ := x
      rw [hs] at h
      simp only [Option.map_some', Option.some.injEq, Prod.mk.injEq] at h
      obtain ⟨rfl, rfl⟩ := h
      constructor
      · intro hout
        have hres : res = .started := by simpa using hout
        exact handle_start_conserve hperm hs hres
      · intro hall
        by_cases hres : res = .started
        · exact handle_start_conserve hperm hs hres
        · rw [handle_start_err hs hres]
          exact hall
  | playCard pid? card choose? =>
    simp only [handle_msg] at h
    cases hp : handle_playCard shuffle r pid? card choose? with
    | none => rw [hp] at h; exact Option.noConfusion h
    | some x =>
      obtain ⟨r1, pres⟩ := x
      rw [hp] at h
      simp only [Option.map_some', Option.some.injEq, Prod.mk.injEq] at h
      obtain ⟨rfl, rfl⟩ := h
      refine ⟨fun hout => absurd hout (by simp), fun hall => ?_⟩
      cases pres with
      | err e =>
        rw [handle_playCard_err hp]
        exact hall
      | played w =>
        obtain ⟨pid, p, found_idx, cp, -, -, -, -, hfp, -, -, hpe⟩ :=
          handle_playCard_played hp
        rw [play_effect_allCards hperm hnodup hfp hpe]
        exact hall
  | drawCard pid? =>
    simp only [handle_msg] at h
    cases hp : handle_drawCard shuffle r pid? with
    | none => rw [hp] at h; exact Option.noConfusion h
    | some x =>
      obtain ⟨r1, dres⟩ := x
      rw [hp] at h
      simp only [Option.map_some', Option.some.injEq, Prod.mk.injEq] at h
      obtain ⟨rfl, rfl⟩ := h
      refine ⟨fun hout => absurd hout (by simp), fun hall => ?_⟩
      cases dres with
      | err e =>
        rw [handle_drawCard_err hp]
        exact hall
      | drew =>
        obtain ⟨pid, cp, -, -, -, -, hcase⟩ := handle_drawCard_drew hp
        rcases hcase with ⟨-, r1a, hdc, hr'⟩ | ⟨-, r1a, hdc, hr'⟩
        · have hc := draw_cards_allCards hperm hdc
          rw [hr']
          show r1a.allCards = deck108
          rw [hc]
          exact hall
        · have hc := draw_cards_allCards hperm hdc
          rw [hr']
          show r1a.allCards = deck108
          rw [hc]
          exact hall
  | sayUno pid? =>
    simp only [handle_msg, Option.some.injEq, Prod.mk.injEq] at h
    obtain ⟨rfl, rfl⟩ := h
    refine ⟨fun hout => absurd hout (by simp), fun hall => ?_⟩
    rw [handle_sayUno_allCards]
    exact hall
  | calloutUno pid? =>
    simp only [handle_msg] at h
    cases hp : handle_calloutUno shuffle r pid? with
    | none => rw [hp] at h; exact Option.noConfusion h
    | some x =>
      obtain ⟨r1, cres⟩ := x
      rw [hp] at h
      simp only [Option.map_some', Option.some.injEq, Prod.mk.injEq] at h
      obtain ⟨rfl, rfl⟩ := h
      refine ⟨fun hout => absurd hout (by simp), fun hall => ?_⟩
      obtain ⟨ps1, piles1, offs, hcl, hr', -⟩ := handle_calloutUno_spec hp
      have hc := calloutLoop_conserve hperm hcl
      rw [hr']
      show (↑(piles1.1 ++ piles1.2 ++ handsOf ps1) : Multiset Card) = deck108
      rw [hc]
      exact hall

/-- **C1 (witness)** — a full `start` on the fresh two-seat room over the
identity shuffle answers `started` and the resulting room holds exactly the
108-card deck. -/
theorem claim_C1_witness :
    startRes2p.2 = .startRes .started ∧ (startRes2p.1).allCards = deck108 :=
  ⟨by rfl,
    (claim_C1_card_conservation (fun l => l) 1 room2p Msg.start startRes2p.1
      startRes2p.2 (fun l => List.Perm.refl l) (by decide) (by rfl)).1 (by rfl)⟩

end Uno
